import Mathlib

/-!
Shallow embedding of the delta-rcm core (src/src/utils/parser.ts,
src/src/utils /analytics.ts, src/src/types.ts) and proofs about the
spec claims.  JavaScript numbers are modelled as rationals, strings as
Lean strings (lists of characters), and JS `Map`/`Record` values as
functions into `Option`.  The host `Date.parse` fallback used by
`parseDOS` is host-defined and is therefore taken as a parameter.
-/

namespace DeltaRCM

/-! Character and string utilities mirroring the JavaScript string
operations used by the source (ASCII case mapping, trimming,
substring search, prefix tests). -/

/-- ASCII upper-casing of one character, as JS `toUpperCase` acts on
the ASCII range used by the data. -/
def jsUpperChar (c : Char) : Char :=
  if 97 ≤ c.toNat ∧ c.toNat ≤ 122 then Char.ofNat (c.toNat - 32) else c

/-- ASCII lower-casing of one character, as JS `toLowerCase` acts on
the ASCII range used by the data. -/
def jsLowerChar (c : Char) : Char :=
  if 65 ≤ c.toNat ∧ c.toNat ≤ 90 then Char.ofNat (c.toNat + 32) else c

/-- Model of `String.prototype.toUpperCase` (ASCII). -/
def jsToUpper (s : String) : String := ⟨s.data.map jsUpperChar⟩

/-- Model of `String.prototype.toLowerCase` (ASCII). -/
def jsToLower (s : String) : String := ⟨s.data.map jsLowerChar⟩

/-- Whitespace predicate modelling the `\s` class and `trim` on the
characters that occur in the data. -/
def isWs (c : Char) : Bool := c.isWhitespace

/-- Trim whitespace from both ends of a character list. -/
def trimChars (l : List Char) : List Char :=
  ((l.dropWhile isWs).reverse.dropWhile isWs).reverse

/-- Model of `String.prototype.trim`. -/
def jsTrim (s : String) : String := ⟨trimChars s.data⟩

/-- Substring search on character lists, modelling `String.prototype.includes`. -/
def listContains (pat : List Char) : List Char → Bool
  | [] => decide (pat = [])
  | c :: rest => pat.isPrefixOf (c :: rest) || listContains pat rest

/-- Model of `hay.includes(pat)`. -/
def containsStr (hay pat : String) : Bool := listContains pat.data hay.data

/-- Model of `s.startsWith(pat)`. -/
def startsWithStr (s pat : String) : Bool := pat.data.isPrefixOf s.data

/-- Remove the first case-insensitive occurrence of `pat` (already
lower-cased) from a character list, modelling
`s.replace(new RegExp(pat, "i"), "")` for a literal pattern. -/
def removeFirstCI (pat : List Char) : List Char → List Char
  | [] => []
  | c :: rest =>
    if ((c :: rest).take pat.length).map jsLowerChar = pat
    then (c :: rest).drop pat.length
    else c :: removeFirstCI pat rest

/-- Remove the first occurrence of a single character, modelling
`s.replace(":", "")` and similar single-character replacements. -/
def removeFirstChar (x : Char) : List Char → List Char
  | [] => []
  | c :: rest => if c = x then rest else c :: removeFirstChar x rest

/-! Model of the JS `parseFloat` function on the decimal literals that
occur in the data: optional leading whitespace, optional sign, digits
with an optional fractional part, and an optional exponent.  `none`
models `NaN`. -/

/-- Numeric value of a list of decimal digit characters. -/
def digitsToNat (ds : List Char) : ℕ := ds.foldl (fun a c => a * 10 + (c.toNat - 48)) 0

/-- Split a character list into its leading digits and the rest. -/
def takeDigits (cs : List Char) : List Char × List Char :=
  (cs.takeWhile Char.isDigit, cs.dropWhile Char.isDigit)

/-- Power of ten as a rational, kept at the core `Rat` operations. -/
def pow10 (n : ℕ) : ℚ := ((10 ^ n : ℕ) : ℚ)

/-- Integer power of ten as a rational. -/
def zpow10 : ℤ → ℚ
  | Int.ofNat n => pow10 n
  | Int.negSucc n => 1 / pow10 (n + 1)

/-- Absolute value, as JS `Math.abs`, kept at the core `Rat`
operations. -/
def ratAbs (q : ℚ) : ℚ := if q < 0 then -q else q

/-- Signed exponent digits accepted after an `e` or `E`. -/
def jsExponentDigits (sgn : ℤ) (cs : List Char) : ℤ :=
  match takeDigits cs with
  | (ed, _) => if ed.isEmpty then 0 else sgn * digitsToNat ed

/-- Exponent part accepted by `parseFloat` after the mantissa: an `e`
or `E`, an optional sign and at least one digit; anything else
contributes exponent 0 (the shorter valid prefix wins). -/
def jsExponentOf (cs : List Char) : ℤ :=
  match cs with
  | 'e' :: '-' :: u => jsExponentDigits (-1) u
  | 'E' :: '-' :: u => jsExponentDigits (-1) u
  | 'e' :: '+' :: u => jsExponentDigits 1 u
  | 'E' :: '+' :: u => jsExponentDigits 1 u
  | 'e' :: u => jsExponentDigits 1 u
  | 'E' :: u => jsExponentDigits 1 u
  | _ => 0

/-- Mantissa-and-exponent assembly of `parseFloat`: an empty digit
part on both sides of the point is `NaN`. -/
def jsAssemble (neg : Bool) (ip fp rest : List Char) : Option ℚ :=
  if ip.isEmpty ∧ fp.isEmpty then none
  else
    some ((if neg then (-1 : ℚ) else 1) *
      ((digitsToNat ip : ℚ) + (digitsToNat fp : ℚ) / pow10 fp.length) *
      zpow10 (jsExponentOf rest))

/-- Fractional part of the `parseFloat` mantissa after the integer
digits. -/
def jsAfterInt (neg : Bool) (ip rest1 : List Char) : Option ℚ :=
  match rest1 with
  | '.' :: t =>
    match takeDigits t with
    | (fp, rest2) => jsAssemble neg ip fp rest2
  | _ => jsAssemble neg ip [] rest1

/-- Mantissa of `parseFloat` after the optional sign. -/
def jsAfterSign (neg : Bool) (cs : List Char) : Option ℚ :=
  match takeDigits cs with
  | (ip, rest1) => jsAfterInt neg ip rest1

/-- Model of `parseFloat` on a character list: leading whitespace,
optional sign, decimal mantissa and optional exponent. -/
def jsParseFloatChars (cs0 : List Char) : Option ℚ :=
  match cs0.dropWhile isWs with
  | '-' :: t => jsAfterSign true t
  | '+' :: t => jsAfterSign false t
  | t => jsAfterSign false t

/-- Model of `parseFloat` on a string. -/
def jsParseFloat (s : String) : Option ℚ := jsParseFloatChars s.data

/-! Field normalizers from parser.ts. -/

/-- Parenthesis handling of `normalizeMoney` after stripping: a fully
parenthesized value is negated, and an unparseable remainder is 0. -/
def normalizeMoneyChars (stripped : List Char) : ℚ :=
  match stripped with
  | '(' :: rest =>
    if rest ≠ [] ∧ rest.getLast? = some ')'
    then (jsParseFloatChars ('-' :: rest.dropLast)).getD 0
    else (jsParseFloatChars ('(' :: rest)).getD 0
  | r => (jsParseFloatChars r).getD 0

/-- Embedding of `normalizeMoney` (parser.ts lines 8-15): empty input
is 0, currency symbols, commas and whitespace are stripped, a
parenthesized value becomes negated, and an unparseable remainder is 0. -/
def normalizeMoney (s : String) : ℚ :=
  if s = "" then 0
  else normalizeMoneyChars (s.data.filter (fun c => ¬(c = '$' ∨ c = ',' ∨ isWs c)))

/-! Dates.  A JS `Date` built by `new Date(y, m, d)` is modelled as a
calendar triple; the constructor normalizes out-of-range components by
calendar arithmetic, which is modelled by month normalization followed
by day stepping. -/

/-- Calendar date (year, month 1-12 after normalization, day). -/
structure JsDate where
  y : ℤ
  m : ℤ
  d : ℤ
deriving DecidableEq, Repr

/-- Gregorian leap-year rule. -/
def isLeap (y : ℤ) : Bool := (y % 4 == 0 && y % 100 != 0) || y % 400 == 0

/-- Number of days of a month. -/
def daysInMonth (y m : ℤ) : ℤ :=
  if m = 2 then (if isLeap y then 29 else 28)
  else if m = 4 ∨ m = 6 ∨ m = 9 ∨ m = 11 then 30 else 31

/-- Next calendar day. -/
def succDate (dt : JsDate) : JsDate :=
  if dt.d < daysInMonth dt.y dt.m then ⟨dt.y, dt.m, dt.d + 1⟩
  else if dt.m < 12 then ⟨dt.y, dt.m + 1, 1⟩
  else ⟨dt.y + 1, 1, 1⟩

/-- Previous calendar day. -/
def predDate (dt : JsDate) : JsDate :=
  if 1 < dt.d then ⟨dt.y, dt.m, dt.d - 1⟩
  else if 1 < dt.m then ⟨dt.y, dt.m - 1, daysInMonth dt.y (dt.m - 1)⟩
  else ⟨dt.y - 1, 12, 31⟩

/-- Step a date forward a number of days. -/
def addDaysN : ℕ → JsDate → JsDate
  | 0, dt => dt
  | n + 1, dt => addDaysN n (succDate dt)

/-- Step a date backward a number of days. -/
def subDaysN : ℕ → JsDate → JsDate
  | 0, dt => dt
  | n + 1, dt => subDaysN n (predDate dt)

/-- Model of `new Date(y, mIdx, d)` with a 0-based month index: years
0-99 map to 1900+y, the month index is normalized into the year, and
the day offset is applied by calendar stepping. -/
def jsMakeDate (y mIdx d : ℤ) : JsDate :=
  let y1 := if 0 ≤ y ∧ y ≤ 99 then y + 1900 else y
  let ym := y1 + mIdx.fdiv 12
  let m := mIdx.emod 12 + 1
  if 0 ≤ d - 1 then addDaysN (d - 1).toNat ⟨ym, m, 1⟩ else subDaysN (1 - d).toNat ⟨ym, m, 1⟩

/-- Days since the Unix epoch of a calendar date (used only to model
`Date.prototype.getTime`, with the host timezone taken as UTC). -/
def epochDays (dt : JsDate) : ℤ :=
  let y := if dt.m ≤ 2 then dt.y - 1 else dt.y
  let era := y.fdiv 400
  let yoe := y - era * 400
  let mp := if 2 < dt.m then dt.m - 3 else dt.m + 9
  let doy := (153 * mp + 2).fdiv 5 + dt.d - 1
  let doe := yoe * 365 + yoe.fdiv 4 - yoe.fdiv 100 + doy
  era * 146097 + doe - 719468

/-- Model of `Date.prototype.getTime` in milliseconds. -/
def getTime (dt : JsDate) : ℤ := epochDays dt * 86400000

/-- Match of the anchored ISO pattern `^(\d{4})-(\d{2})-(\d{2})$`,
returning the numeric capture groups. -/
def isoMatch (s : String) : Option (ℕ × ℕ × ℕ) :=
  match s.data with
  | [a, b, c, d, '-', e, f, '-', g, h] =>
    if [a, b, c, d, e, f, g, h].all Char.isDigit
    then some (digitsToNat [a, b, c, d], digitsToNat [e, f], digitsToNat [g, h])
    else none
  | _ => none

/-- Digit run of bounded length. -/
def digitRun (lo hi : ℕ) (g : List Char) : Bool :=
  g.all Char.isDigit && decide (lo ≤ g.length) && decide (g.length ≤ hi)

/-- Match of the anchored US pattern `^(\d{1,2})\/(\d{1,2})\/(\d{2,4})$`,
returning the numeric capture groups. -/
def usMatch (s : String) : Option (ℕ × ℕ × ℕ) :=
  match s.data.splitOn '/' with
  | [g1, g2, g3] =>
    if digitRun 1 2 g1 && digitRun 1 2 g2 && digitRun 2 4 g3
    then some (digitsToNat g1, digitsToNat g2, digitsToNat g3)
    else none
  | _ => none

/-- Embedding of `parseDOS` (parser.ts lines 17-32).  The trailing
`Date.parse` fallback is host-defined and is passed in as `dp`. -/
def parseDOS (dp : String → Option JsDate) (str : String) : Option JsDate :=
  if str = "" then none
  else
    match isoMatch (jsTrim str) with
    | some (y, m, d) => some (jsMakeDate y ((m : ℤ) - 1) d)
    | none =>
      match usMatch (jsTrim str) with
      | some (mm, dd, yy) =>
        some (jsMakeDate (if yy < 100 then (yy : ℤ) + 2000 else (yy : ℤ)) ((mm : ℤ) - 1) dd)
      | none => dp (jsTrim str)

/-! Remaining field normalizers. -/

/-- Embedding of `normalizePayerName` (parser.ts lines 39-54). -/
def normalizePayerName (raw : String) : String :=
  if raw = "" then "Unknown Payer"
  else
    let upper := jsTrim (jsToUpper raw)
    if containsStr upper "UNITED HEALTH" || containsStr upper "UNITEDHEALTH" ||
        containsStr upper "UHC" || upper == "UNITED"
    then "UnitedHealthcare"
    else jsTrim raw

/-- Procedure-code classes from types.ts. -/
inductive CodeType where
  | AQL
  | NUMERIC
  | OTHER
deriving DecidableEq, Repr

/-- Embedding of `determineCodeType` (parser.ts lines 56-61). -/
def determineCodeType (cpt : String) : CodeType :=
  match (jsToUpper cpt).data with
  | [] => CodeType.OTHER
  | c :: _ =>
    if c = 'A' ∨ c = 'Q' ∨ c = 'L' then CodeType.AQL
    else if c.isDigit then CodeType.NUMERIC
    else CodeType.OTHER

/-- Embedding of `detectDelimiter` (parser.ts lines 34-37): the first
line with non-whitespace content chooses tab over comma. -/
def detectDelimiter (text : String) : Char :=
  let lines := (text.data.splitOn '\n').map (fun l => if l.getLast? = some '\r' then l.dropLast else l)
  let firstLine := (lines.find? (fun l => l.any (fun c => ¬isWs c))).getD []
  if firstLine.contains '\t' then '\t' else ','

/-! Quote-aware CSV tokenizer. -/

/-- State machine of `parseCSVLine` (parser.ts lines 63-101): `field`
and `row` accumulate the current field and row, `inQuotes` tracks the
quoted region (a doubled quote inside it is a literal quote), and the
final non-empty field or row is flushed. -/
def csvAux (delim : Char) : List Char → Bool → List Char → List String → List (List String) →
    List (List String)
  | [], _, field, row, rows =>
    if field ≠ [] ∨ row ≠ [] then rows ++ [row ++ [⟨field⟩]] else rows
  | '"' :: '"' :: rest, true, field, row, rows => csvAux delim rest true (field ++ ['"']) row rows
  | '"' :: rest, true, field, row, rows => csvAux delim rest false field row rows
  | c :: rest, true, field, row, rows => csvAux delim rest true (field ++ [c]) row rows
  | c :: rest, false, field, row, rows =>
    if c = '"' then csvAux delim rest true field row rows
    else if c = delim then csvAux delim rest false [] (row ++ [⟨field⟩]) rows
    else if c = '\n' then csvAux delim rest false [] [] (rows ++ [row ++ [⟨field⟩]])
    else if c = '\r' then csvAux delim rest false field row rows
    else csvAux delim rest false (field ++ [c]) row rows

/-- Embedding of `parseCSVLine`. -/
def parseCSVLine (text : String) (delim : Char) : List (List String) :=
  csvAux delim text.data false [] [] []

/-! The Claim record (types.ts) and the delimited-text parser. -/

/-- Embedding of the `Claim` interface from types.ts. -/
structure Claim where
  id : ℕ
  provider : String
  cpt : String
  codeType : CodeType
  units : ℚ
  charge : ℚ
  paid : ℚ
  patientId : String
  patientName : String
  payer : String
  dos : Option JsDate
  dateSort : ℤ
  isPaid : Bool
deriving DecidableEq, Repr

/-- JS falsy-string defaulting: `a || b` on strings. -/
def orDefault (a b : String) : String := if a = "" then b else a

/-- Cell access `row[i]`, with a missing index or out-of-range access
(JS `undefined`) modelled as the empty string, which is JS-falsy and
unparseable exactly like `undefined` in every use site. -/
def getCell (row : List String) (i : Option ℕ) : String :=
  match i with
  | none => ""
  | some j => row.getD j ""

/-- Resolved optional column indices of `parseClaimsData`. -/
structure ColIdx where
  units : Option ℕ
  charges : Option ℕ
  paid : Option ℕ
  patientId : Option ℕ
  patientName : Option ℕ
  payer : Option ℕ
  dos : Option ℕ
  provider : Option ℕ

/-- Header resolution: first candidate name present in the header wins
(parser.ts lines 114-120). -/
def findIdx (header : List String) : List String → Option ℕ
  | [] => none
  | cand :: rest =>
    match header.findIdx? (fun h => h = cand) with
    | some i => some i
    | none => findIdx header rest

/-- Row acceptance of `parseClaimsData`: the procedure-code cell is
non-empty after trimming (parser.ts lines 138-140). -/
def keepRow (icpt : ℕ) (row : List String) : Bool := jsTrim (row.getD icpt "") ≠ ""

/-- Claim construction from one accepted CSV data row
(parser.ts lines 142-167). -/
def mkClaim (dp : String → Option JsDate) (fallback : String) (icpt : ℕ) (idx : ColIdx)
    (n : ℕ) (row : List String) : Claim :=
  let cpt := jsTrim (row.getD icpt "")
  let units := (jsParseFloat (getCell row idx.units)).getD 0
  let charge := normalizeMoney (getCell row idx.charges)
  let paid := ratAbs (normalizeMoney (getCell row idx.paid))
  let provider := orDefault (orDefault (getCell row idx.provider) fallback) "Unknown Provider"
  let payer := normalizePayerName (orDefault (getCell row idx.payer) "Unknown Payer")
  let patientId := orDefault (getCell row idx.patientId) "Unknown ID"
  let patientName := orDefault (getCell row idx.patientName) "Unknown Patient"
  let dos := parseDOS dp (getCell row idx.dos)
  { id := n
    provider := provider
    cpt := jsToUpper cpt
    codeType := determineCodeType cpt
    units := units
    charge := charge
    paid := paid
    patientId := patientId
    patientName := patientName
    payer := payer
    dos := dos
    dateSort := (dos.map getTime).getD 0
    isPaid := decide ((1 : ℚ) / 100 < paid) }

/-- The row loop of `parseClaimsData` with its monotone id counter. -/
def rowsToClaims (dp : String → Option JsDate) (fallback : String) (icpt : ℕ) (idx : ColIdx) :
    ℕ → List (List String) → List Claim
  | _, [] => []
  | n, row :: rest =>
    if keepRow icpt row
    then mkClaim dp fallback icpt idx n row :: rowsToClaims dp fallback icpt idx (n + 1) rest
    else rowsToClaims dp fallback icpt idx n rest

/-- Resolution of all optional columns against the candidate-name
lists of parser.ts lines 123-130. -/
def resolveCols (header : List String) : ColIdx :=
  { units := findIdx header ["days_or_units", "units", "days", "qty"]
    charges := findIdx header ["charges", "charge", "billed"]
    paid := findIdx header ["insurance_payment", "paid", "payment", "ins paid"]
    patientId := findIdx header ["patient_id", "id", "mrn", "account number"]
    patientName := findIdx header ["patient_name", "patient", "name", "patient name"]
    payer := findIdx header ["insurance provider", "payer", "insurance", "plan", "insurance_name"]
    dos := findIdx header ["date_of_service", "dos", "date", "service date"]
    provider := findIdx header ["provider", "rendering provider", "rendering_provider", "attending"] }

/-- The resolved lower-cased trimmed header of `parseClaimsData`
(parser.ts line 111). -/
def resolvedHeader (text : String) : List String :=
  ((parseCSVLine text (detectDelimiter text)).headD []).map (fun h => jsTrim (jsToLower h))

/-- Candidate names of the mandatory procedure-code column. -/
def cptCandidates : List String := ["cpt", "procedure code", "proc code"]

/-- Embedding of `parseClaimsData` (parser.ts lines 105-171); a thrown
error is modelled as `Except.error`. -/
def parseClaimsData (dp : String → Option JsDate) (text fallback : String) :
    Except String (List Claim) :=
  let rawRows := parseCSVLine text (detectDelimiter text)
  if rawRows.length < 2 then Except.ok []
  else
    match findIdx (resolvedHeader text) cptCandidates with
    | none => Except.error "Could not find a CPT column header in CSV."
    | some icpt =>
      Except.ok (rowsToClaims dp fallback icpt (resolveCols (resolvedHeader text)) 1 (rawRows.drop 1))

/-! Analytics: rate inference, denial opportunity, patient stats
(analytics.ts).  JS `Map` results are modelled by their key lookup
functions. -/

/-- Rate-method tags from types.ts. -/
inductive RateMethod where
  | Mode
  | Max
  | None
deriving DecidableEq, Repr

/-- Embedding of the `ReimbursementRate` interface from types.ts. -/
structure ReimbursementRate where
  payer : String
  cpt : String
  expectedRate : ℚ
  method : RateMethod
  frequency : ℕ
deriving DecidableEq, Repr

/-- Rounding to two decimals, `Math.round(x * 100) / 100`
(analytics.ts line 17); `Math.round` rounds half toward positive
infinity. -/
def round2 (q : ℚ) : ℚ := ((q * 100 + 1 / 2).floor : ℚ) / 100

/-- Qualifying filter of the rate engine: `c.isPaid && c.paid > 0 &&
c.units > 0` (analytics.ts line 10). -/
def qualifying (c : Claim) : Bool := c.isPaid && decide (0 < c.paid) && decide (0 < c.units)

/-- Rounded unit rates pushed for one (payer, cpt) group, in claim
order (analytics.ts lines 10-19). -/
def groupRates (claims : List Claim) (payer cpt : String) : List ℚ :=
  ((claims.filter qualifying).filter (fun c => c.payer = payer ∧ c.cpt = cpt)).map
    (fun c => round2 (c.paid / c.units))

/-- One step of the mode loop of `calculateReimbursementRates`
(analytics.ts lines 40-49): the accumulator holds `(modeRate, maxFreq)`
and a strictly larger frequency, or an equal frequency with a larger
rate, replaces the mode. -/
def modeStep (rates : List ℚ) (acc : ℚ × ℕ) (r : ℚ) : ℚ × ℕ :=
  let freq := rates.count r
  if acc.2 < freq then (r, freq)
  else if freq = acc.2 ∧ acc.1 < r then (r, acc.2)
  else acc

/-- The per-group computation of `calculateReimbursementRates`
(analytics.ts lines 27-71): histogram mode with tie-break, running
maximum, and the distinct-count selection rule.  `distinct` enumerates
the distinct rates as `Object.entries` does; every theorem about it is
proved for an arbitrary duplicate-free enumeration. -/
def computeRateEntry (payer cpt : String) (rates distinct : List ℚ) : ReimbursementRate :=
  let mode := distinct.foldl (modeStep rates) (0, 0)
  let maxRate := rates.foldl (fun m r => if m < r then r else m) 0
  if 2 < distinct.length
  then { payer := payer, cpt := cpt, expectedRate := mode.1, method := RateMethod.Mode, frequency := mode.2 }
  else { payer := payer, cpt := cpt, expectedRate := maxRate, method := RateMethod.Max, frequency := mode.2 }

/-- Embedding of `calculateReimbursementRates` (analytics.ts lines
6-76) as the lookup function of the produced nested map: a (payer,
cpt) key is present exactly when some qualifying claim was pushed for
it. -/
def calculateReimbursementRates (claims : List Claim) (payer cpt : String) :
    Option ReimbursementRate :=
  let rates := groupRates claims payer cpt
  if rates = [] then none else some (computeRateEntry payer cpt rates rates.dedup)

/-- Embedding of the `PayerDenialStats` interface from types.ts. -/
structure PayerDenialStats where
  payer : String
  deniedUnits : ℚ
  deniedValue : ℚ
  projectedValue : ℚ
deriving DecidableEq, Repr

/-- Projected value added for one unpaid claim: the rate-table entry
if present, otherwise nothing (analytics.ts lines 96-102). -/
def projectedFor (rates : String → String → Option ReimbursementRate) (c : Claim) : ℚ :=
  match rates c.payer c.cpt with
  | some e => c.units * e.expectedRate
  | none => 0

/-- One step of `calculateDenialOpportunity` over an unpaid claim: the
per-payer stat is created on demand and its sums grow (analytics.ts
lines 87-103). -/
def denialStep (rates : String → String → Option ReimbursementRate)
    (m : String → Option PayerDenialStats) (c : Claim) : String → Option PayerDenialStats :=
  fun p =>
    if p = c.payer then
      let s := (m c.payer).getD { payer := c.payer, deniedUnits := 0, deniedValue := 0, projectedValue := 0 }
      some { s with
        deniedUnits := s.deniedUnits + c.units
        deniedValue := s.deniedValue + c.charge
        projectedValue := s.projectedValue + projectedFor rates c }
    else m p

/-- Embedding of `calculateDenialOpportunity` (analytics.ts lines
80-106) as the lookup function of the produced per-payer map. -/
def calculateDenialOpportunity (claims : List Claim)
    (rates : String → String → Option ReimbursementRate) : String → Option PayerDenialStats :=
  (claims.filter (fun c => !c.isPaid)).foldl (denialStep rates) (fun _ => none)

/-- Embedding of the `PatientStat` interface from types.ts. -/
structure PatientStat where
  patientName : String
  patientId : String
  totalVisits : ℕ
  totalRevenue : ℚ
  lastVisit : Option JsDate
  payer : String
deriving DecidableEq, Repr

/-- The `lastVisit` update of `analyzePatients` (analytics.ts lines
132-136): a dated claim later than the recorded last visit replaces it. -/
def bumpLastVisit (dos : Option JsDate) (p : PatientStat) : PatientStat :=
  match dos, p.lastVisit with
  | some d, none => { p with lastVisit := some d }
  | some d, some lv => if getTime lv < getTime d then { p with lastVisit := some d } else p
  | none, _ => p

/-- One step of the claim loop of `analyzePatients` (analytics.ts
lines 113-137): the record is created at the first claim of a patient
(fixing `payer`), and revenue accumulates. -/
def patientStep (m : String → Option PatientStat) (c : Claim) : String → Option PatientStat :=
  fun pid =>
    if pid = c.patientId then
      some (bumpLastVisit c.dos
        (let p := (m c.patientId).getD
          { patientName := c.patientName, patientId := c.patientId, totalVisits := 0
            totalRevenue := 0, lastVisit := none, payer := c.payer }
         { p with totalRevenue := p.totalRevenue + c.paid }))
    else m pid

/-- Visit-dedup key string of `analyzePatients` (analytics.ts line
142), the JS template `pid + "|" + dos?.getTime()` with `undefined`
printed for a missing date. -/
def visitKey (c : Claim) : String :=
  c.patientId ++ "|" ++
    (match c.dos with
     | some d => toString (getTime d)
     | none => "undefined")

/-- The `key.split("|")[0]` grouping of the visit recount
(analytics.ts line 146): the segment before the first separator. -/
def firstSegment (s : String) : String := ⟨s.data.takeWhile (fun c => c ≠ '|')⟩

/-- Embedding of `analyzePatients` (analytics.ts lines 110-155) as the
lookup function of the produced per-patient map, including the
distinct-key visit recount grouped by the first key segment. -/
def analyzePatients (claims : List Claim) (pid : String) : Option PatientStat :=
  let m := claims.foldl patientStep (fun _ => none)
  (m pid).map (fun p =>
    { p with totalVisits :=
        (((claims.map visitKey).dedup).filter (fun k => firstSegment k = pid)).length })

/-- Field-escaping rule of the CSV exporter `downloadCSV`
(parser.ts lines 363-369): a field containing a comma, quote or
newline is wrapped in quotes with embedded quotes doubled. -/
def escapeField (s : String) : String :=
  if s.data.contains ',' || s.data.contains '"' || s.data.contains '\n'
  then ⟨'"' :: (s.data.flatMap (fun c => if c = '"' then ['"', '"'] else [c])) ++ ['"']⟩
  else s

/-! Report-layout parser (parser.ts lines 175-354).  The XLSX
container decoding is an external collaborator (spec section 6), so the
embedding starts from the materialized 2-D grid of cells; numeric and
missing cells are modelled by their string images, which behave
identically at every use site. -/

/-- Running key-value context of the Visit-Report layout
(`currentPatientInfo`); absent JS object fields are the empty string,
which is falsy exactly like `undefined` at every use site. -/
structure PInfo where
  patientName : String
  patientId : String
  insurance : String
  provider : String
deriving DecidableEq, Repr

/-- Header cell lookup built by the header loop (parser.ts lines
200-205): the last non-empty header cell with a given lower-cased
trimmed text wins. -/
def headerLookup (headerRow : List String) (key : String) : Option ℕ :=
  headerRow.enum.foldl
    (fun acc p => if jsTrim p.2 ≠ "" ∧ jsToLower (jsTrim p.2) = key then some p.1 else acc)
    none

/-- Flattened lower-cased row text, `row.join(" ").toLowerCase()`. -/
def rowText (row : List String) : String := jsToLower (String.intercalate " " row)

/-- Key-value extraction of the Visit-Report layout
(parser.ts lines 275-294): find the cell containing the keyword, use
the remainder of that cell if non-empty, else the next non-empty cell. -/
def findValueByKeyword (row : List String) (keyword : String) : String :=
  let keywordLower := removeFirstChar ':' (jsToLower keyword).data
  match row.findIdx? (fun c => listContains keywordLower (jsToLower c).data) with
  | none => ""
  | some ci =>
    let cellText := row.getD ci ""
    let potentialValue :=
      jsTrim ⟨removeFirstChar ':' (removeFirstCI (jsToLower keyword).data cellText.data)⟩
    if potentialValue ≠ "" then potentialValue
    else
      match (row.drop (ci + 1)).find? (fun c => c ≠ "") with
      | some nc => jsTrim nc
      | none => ""

/-- Claim construction from one Payment-Report data row
(parser.ts lines 243-267). -/
def mkPaymentClaim (dp : String → Option JsDate) (hm : String → Option ℕ)
    (prov : String) (n : ℕ) (row : List String) : Claim :=
  let paid := ratAbs (normalizeMoney (getCell row (hm "applied payments")))
  let patName := match hm "patient name" with
    | some i => getCell row (some i)
    | none => "Unknown"
  let patId := match hm "patient id" with
    | some i => getCell row (some i)
    | none => "Unknown"
  let payer := match hm "payer" with
    | some i => normalizePayerName (getCell row (some i))
    | none => "Unknown Payer"
  let dos := parseDOS dp (getCell row (hm "dos"))
  let cpt := jsToUpper (jsTrim (getCell row (hm "cpt")))
  { id := n
    provider := orDefault prov "Unknown Provider"
    cpt := cpt
    codeType := determineCodeType cpt
    units := 1
    charge := 0
    paid := paid
    patientId := patId
    patientName := patName
    payer := payer
    dos := dos
    dateSort := (dos.map getTime).getD 0
    isPaid := decide ((1 : ℚ) / 100 < paid) }

/-- Row loop of the Payment-Report layout (parser.ts lines 215-269):
`provider name:` rows update the running provider context, data rows
need both DOS and CPT cells, and `desc.` values containing `adj` are
skipped. -/
def paymentGo (dp : String → Option JsDate) (hm : String → Option ℕ) :
    String → ℕ → List (List String) → List Claim
  | _, _, [] => []
  | prov, n, row :: rest =>
    if row.all (fun cell => cell = "") then paymentGo dp hm prov n rest
    else if containsStr (rowText row) "provider name:" then
      let prov2 :=
        match row.find? (fun c => containsStr (jsToLower c) "provider name:") with
        | some cell => orDefault (jsTrim ⟨removeFirstCI "provider name:".data cell.data⟩) prov
        | none => prov
      paymentGo dp hm prov2 n rest
    else if getCell row (hm "dos") ≠ "" ∧ getCell row (hm "cpt") ≠ "" then
      if (match hm "desc." with
          | some di => containsStr (jsToLower (getCell row (some di))) "adj"
          | none => false)
      then paymentGo dp hm prov n rest
      else mkPaymentClaim dp hm prov n row :: paymentGo dp hm prov (n + 1) rest
    else paymentGo dp hm prov n rest

/-- Unanchored digit eater for the Visit-Report date shape test. -/
def eatDigits : ℕ → List Char → Option (List Char)
  | 0, l => some l
  | k + 1, c :: rest => if c.isDigit then eatDigits k rest else none
  | _ + 1, [] => none

/-- Shape `\d{a}\/\d{b}\/\d{4}` anchored at the list head. -/
def usShapeAt (a b : ℕ) (l : List Char) : Bool :=
  match eatDigits a l with
  | some ('/' :: r1) =>
    (match eatDigits b r1 with
     | some ('/' :: r2) => (eatDigits 4 r2).isSome
     | _ => false)
  | _ => false

/-- Unanchored test of `/\d{1,2}\/\d{1,2}\/\d{4}/` on a suffix scan. -/
def usAnywhereAux : List Char → Bool
  | [] => false
  | c :: rest =>
    usShapeAt 1 1 (c :: rest) || usShapeAt 1 2 (c :: rest) ||
      usShapeAt 2 1 (c :: rest) || usShapeAt 2 2 (c :: rest) || usAnywhereAux rest

/-- Test of `/\d{1,2}\/\d{1,2}\/\d{4}/.test(s)` (unanchored). -/
def usAnywhere (s : String) : Bool := usAnywhereAux s.data

/-- Data-row acceptance of the Visit-Report layout (parser.ts line
322): a US-shaped date anywhere or an exact ISO date, and a non-empty
CPT cell. -/
def visitAccepts (hm : String → Option ℕ) (row : List String) : Bool :=
  let dosStr := jsTrim (getCell row (hm "date of service"))
  let cptCode := jsTrim (getCell row (hm "cpt"))
  (usAnywhere dosStr || (isoMatch dosStr).isSome) && cptCode ≠ ""

/-- Claim construction from one accepted Visit-Report data row
(parser.ts lines 324-348). -/
def mkVisitClaim (dp : String → Option JsDate) (hm : String → Option ℕ)
    (fallback : String) (info : PInfo) (n : ℕ) (row : List String) : Claim :=
  let dosStr := jsTrim (getCell row (hm "date of service"))
  let cptCode := jsTrim (getCell row (hm "cpt"))
  let units := (jsParseFloat (getCell row (hm "days or units"))).getD 0
  let charge := normalizeMoney (getCell row (hm "charges"))
  let paid := ratAbs (normalizeMoney (getCell row (hm "insurance payment")))
  let dos := parseDOS dp dosStr
  { id := n
    provider := orDefault (orDefault info.provider fallback) "Unknown Provider"
    cpt := jsToUpper cptCode
    codeType := determineCodeType cptCode
    units := units
    charge := charge
    paid := paid
    patientId := orDefault info.patientId "Unknown ID"
    patientName := orDefault info.patientName "Unknown Patient"
    payer := normalizePayerName (orDefault info.insurance "Unknown Payer")
    dos := dos
    dateSort := (dos.map getTime).getD 0
    isPaid := decide ((1 : ℚ) / 100 < paid) }

/-- Guard of the `patient:` context row (parser.ts line 303). -/
def isPatientRow (row : List String) : Bool :=
  row.any (fun c => startsWithStr (jsToLower c) "patient:")

/-- Guard of the `insurance:` context row (parser.ts line 310). -/
def isInsuranceRow (row : List String) : Bool :=
  row.any (fun c => startsWithStr (jsToLower c) "insurance:")

/-- Row loop of the Visit-Report layout (parser.ts lines 296-350):
`patient:` rows reset the whole running context, `insurance:` rows
update insurance and provider, `sub total`/`page:` rows are skipped,
and accepted data rows inherit the current context. -/
def visitGo (dp : String → Option JsDate) (hm : String → Option ℕ) (fallback : String) :
    PInfo → ℕ → List (List String) → List Claim
  | _, _, [] => []
  | info, n, row :: rest =>
    if row.all (fun cell => cell = "") then visitGo dp hm fallback info n rest
    else if containsStr (rowText row) "sub total" || containsStr (rowText row) "page:" then
      visitGo dp hm fallback info n rest
    else if isPatientRow row then
      visitGo dp hm fallback
        { patientName := findValueByKeyword row "Patient:"
          patientId := findValueByKeyword row "Patient ID:"
          insurance := ""
          provider := "" } n rest
    else if isInsuranceRow row then
      visitGo dp hm fallback
        { info with
          insurance := findValueByKeyword row "Insurance:"
          provider := findValueByKeyword row "Provider:" } n rest
    else if visitAccepts hm row then
      mkVisitClaim dp hm fallback info n row :: visitGo dp hm fallback info (n + 1) rest
    else visitGo dp hm fallback info n rest

/-- Header-row detection of `parseExcelReport` (parser.ts lines
187-193): the first row containing a cell reading `date of service` or
`dos`. -/
def findHeaderRow (rows : List (List String)) : Option ℕ :=
  rows.findIdx? (fun row => row.any (fun cell =>
    jsTrim (jsToLower cell) = "date of service" ∨ jsTrim (jsToLower cell) = "dos"))

/-- Embedding of `parseExcelReport` (parser.ts lines 175-354) from the
materialized grid onward: hard error without a date-of-service header,
then dispatch on the presence of an `applied payments` column. -/
def parseExcelReport (dp : String → Option JsDate) (rows : List (List String))
    (fallback : String) : Except String (List Claim) :=
  match findHeaderRow rows with
  | none => Except.error "Could not find Date of Service or DOS header in Excel file."
  | some hIdx =>
    if (headerLookup (rows.getD hIdx []) "applied payments").isSome
    then Except.ok (paymentGo dp (headerLookup (rows.getD hIdx [])) fallback 1 (rows.drop (hIdx + 1)))
    else Except.ok (visitGo dp (headerLookup (rows.getD hIdx [])) fallback ⟨"", "", "", ""⟩ 1
      (rows.drop (hIdx + 1)))

/-! Concrete fixtures used by witnesses and counterexamples. -/

/-- Host date fallback returning no date, used for concrete runs. -/
def noDateParse : String → Option JsDate := fun _ => none

/-- Concrete claim fixture with a given payer, code, payment and unit
count. -/
def testClaim (payer cpt : String) (paid units : ℚ) : Claim :=
  { id := 0, provider := "Dr", cpt := cpt, codeType := CodeType.OTHER, units := units
    charge := 0, paid := paid, patientId := "P", patientName := "N", payer := payer
    dos := none, dateSort := 0, isPaid := decide ((1 : ℚ) / 100 < paid) }

/-- The paid-rate history [10, 10, 10, 20, 20, 20, 30] of the spec's
tie-break scenario. -/
def tieClaims : List Claim :=
  ([10, 10, 10, 20, 20, 20, 30] : List ℚ).map (fun r => testClaim "P" "C" r 1)

/-- The paid-rate history [10, 50] of the spec's max-fallback scenario. -/
def maxClaims : List Claim :=
  ([10, 50] : List ℚ).map (fun r => testClaim "P" "C" r 1)

/-- An unpaid three-unit claim against payer P, code C. -/
def deniedClaim : Claim := testClaim "P" "C" 0 3

/-- Claim fixture for patient P with payer A, processed first. -/
def firstPayerClaim : Claim := testClaim "A" "C" 5 1

/-- Claim fixture for patient P with payer B, processed last. -/
def lastPayerClaim : Claim := testClaim "B" "C" 7 1

/-- Concrete Visit-Report grid: an insurance context row, then a
patient row, then a data row with no intervening insurance row. -/
def visitFixtureRows : List (List String) :=
  [["Date of Service", "CPT"],
   ["Insurance: BlueCross", "Provider: Dr Z"],
   ["Patient: John Smith", ""],
   ["1/5/2024", "99213"]]

/-! Reducibility of the core rational operations, so that concrete
runs of the embedding evaluate inside proofs. -/

attribute [local semireducible] Rat.add Rat.mul Rat.sub Rat.inv Rat.ofScientific

/-! Helper lemmas about the ASCII case maps. -/

theorem toNat_ofNat_small (n : ℕ) (h : n < 55296) : (Char.ofNat n).toNat = n := by
  have hv : n.isValidChar := Or.inl h
  have h32 : n < 2 ^ 32 := by omega
  rw [Char.ofNat, dif_pos hv]
  simp [Char.ofNatAux, Char.toNat, UInt32.toNat]

theorem jsUpperChar_toNat_not_lower (c : Char) :
    ¬(97 ≤ (jsUpperChar c).toNat ∧ (jsUpperChar c).toNat ≤ 122) := by
  unfold jsUpperChar
  split
  case isTrue h =>
    rw [toNat_ofNat_small (c.toNat - 32) (by omega)]
    omega
  case isFalse h => exact h

theorem jsUpperChar_fix (c : Char) : jsUpperChar (jsUpperChar c) = jsUpperChar c := by
  rw [jsUpperChar, if_neg (jsUpperChar_toNat_not_lower c)]

theorem jsToUpper_jsToUpper (s : String) : jsToUpper (jsToUpper s) = jsToUpper s := by
  unfold jsToUpper
  simp [List.map_map, Function.comp_def, jsUpperChar_fix]

theorem jsToUpper_eq_empty_iff (s : String) : jsToUpper s = "" ↔ s = "" := by
  constructor
  · intro h
    have hd : (jsToUpper s).data = [] := by rw [h]
    unfold jsToUpper at hd
    simp only [List.map_eq_nil_iff] at hd
    exact String.ext hd
  · intro h
    rw [h]
    rfl

theorem determineCodeType_jsToUpper (s : String) :
    determineCodeType (jsToUpper s) = determineCodeType s := by
  unfold determineCodeType
  rw [jsToUpper_jsToUpper]

/-! Claim C6: the money normalizer. -/

/-- C6: `normalizeMoney` strips currency symbols, commas and
whitespace, treats a parenthesized value as negative, and yields 0 on
empty or unparseable input, as on the four specified examples. -/
theorem C6_normalize_money_examples :
    normalizeMoney "$1,234.56" = 1234.56 ∧
    normalizeMoney "(500)" = -500 ∧
    normalizeMoney "" = 0 ∧
    normalizeMoney "abc" = 0 := by
  refine ⟨?_, ?_, rfl, rfl⟩ <;> decide

/-! Claim C2: exactly the qualifying paid claims feed the rate table. -/

theorem count_map_eq_countP {α β : Type} [DecidableEq β] (f : α → β) (l : List α) (r : β) :
    (l.map f).count r = l.countP (fun a => f a == r) := by
  induction l with
  | nil => rfl
  | cons a t ih => simp [List.count_cons, List.countP_cons, ih]

theorem groupRates_mem (claims : List Claim) (payer cpt : String) (r : ℚ) :
    r ∈ groupRates claims payer cpt ↔
      ∃ c ∈ claims, c.isPaid = true ∧ 0 < c.paid ∧ 0 < c.units ∧ c.payer = payer ∧
        c.cpt = cpt ∧ r = round2 (c.paid / c.units) := by
  unfold groupRates qualifying
  simp only [List.mem_map, List.mem_filter, Bool.and_eq_true, decide_eq_true_eq]
  constructor
  · rintro ⟨c, ⟨⟨hc, ⟨hp, hq1⟩, hq2⟩, hm⟩, hr⟩
    exact ⟨c, hc, hp, hq1, hq2, hm.1, hm.2, hr.symm⟩
  · rintro ⟨c, hc, hp, hq1, hq2, hm1, hm2, hr⟩
    exact ⟨c, ⟨⟨hc, ⟨hp, hq1⟩, hq2⟩, hm1, hm2⟩, hr.symm⟩

theorem groupRates_count (claims : List Claim) (payer cpt : String) (r : ℚ) :
    (groupRates claims payer cpt).count r =
      claims.countP (fun c =>
        c.isPaid && decide (0 < c.paid) && decide (0 < c.units) && (c.payer == payer) &&
          (c.cpt == cpt) && (round2 (c.paid / c.units) == r)) := by
  unfold groupRates
  rw [count_map_eq_countP, List.countP_filter, List.countP_filter]
  refine List.countP_congr (fun c _ => ?_)
  unfold qualifying
  simp only [Bool.and_eq_true, beq_iff_eq, decide_eq_true_eq]
  tauto

/-- C2: a (payer, code) pair is absent from the rate table exactly
when no claim with `isPaid`, positive payment and positive units
matches it; the multiset of grouped rates is exactly the 2-decimal
rounded unit prices of the qualifying claims, rounded value serving as
the grouping key of the histogram. -/
theorem C2_qualifying_contributions (claims : List Claim) (payer cpt : String) :
    (calculateReimbursementRates claims payer cpt = none ↔
      ∀ c ∈ claims, ¬(c.isPaid = true ∧ 0 < c.paid ∧ 0 < c.units ∧
        c.payer = payer ∧ c.cpt = cpt)) ∧
    (∀ r : ℚ, r ∈ groupRates claims payer cpt ↔
      ∃ c ∈ claims, c.isPaid = true ∧ 0 < c.paid ∧ 0 < c.units ∧ c.payer = payer ∧
        c.cpt = cpt ∧ r = round2 (c.paid / c.units)) ∧
    (∀ r : ℚ, (groupRates claims payer cpt).count r =
      claims.countP (fun c =>
        c.isPaid && decide (0 < c.paid) && decide (0 < c.units) && (c.payer == payer) &&
          (c.cpt == cpt) && (round2 (c.paid / c.units) == r))) := by
  refine ⟨?_, fun r => groupRates_mem claims payer cpt r, fun r => groupRates_count claims payer cpt r⟩
  have hnone : calculateReimbursementRates claims payer cpt = none ↔
      groupRates claims payer cpt = [] := by
    unfold calculateReimbursementRates
    by_cases h : groupRates claims payer cpt = [] <;> simp [h]
  rw [hnone, List.eq_nil_iff_forall_not_mem]
  constructor
  · intro h c hc ⟨hp, hq1, hq2, hm1, hm2⟩
    exact h (round2 (c.paid / c.units))
      ((groupRates_mem claims payer cpt _).2 ⟨c, hc, hp, hq1, hq2, hm1, hm2, rfl⟩)
  · intro h r hr
    obtain ⟨c, hc, hp, hq1, hq2, hm1, hm2, -⟩ := (groupRates_mem claims payer cpt r).1 hr
    exact h c hc ⟨hp, hq1, hq2, hm1, hm2⟩

/-- Witness for C2: a history of only unpaid or mismatching claims
leaves the (payer, code) pair absent from the rate table. -/
theorem C2_qualifying_contributions_witness :
    calculateReimbursementRates [deniedClaim] "P" "D" = none :=
  (C2_qualifying_contributions [deniedClaim] "P" "D").1.mpr (by decide)

/-! Claim C1: the mode/max selection of the rate engine. -/

theorem rat_floor_eq_int_floor (q : ℚ) : q.floor = ⌊q⌋ := rfl

theorem round2_nonneg (q : ℚ) (h : 0 ≤ q) : 0 ≤ round2 q := by
  unfold round2
  rw [rat_floor_eq_int_floor]
  have h1 : (0 : ℚ) ≤ q * 100 + 1 / 2 := by linarith
  have h2 : (0 : ℤ) ≤ ⌊q * 100 + 1 / 2⌋ := Int.floor_nonneg.2 h1
  positivity

theorem modeStep_spec (rates : List ℚ) (acc : ℚ × ℕ) (a : ℚ) :
    acc.2 ≤ (modeStep rates acc a).2 ∧
    rates.count a ≤ (modeStep rates acc a).2 ∧
    (modeStep rates acc a = acc ∨
      ((modeStep rates acc a).1 = a ∧
        rates.count (modeStep rates acc a).1 = (modeStep rates acc a).2)) ∧
    (rates.count a = (modeStep rates acc a).2 → a ≤ (modeStep rates acc a).1) ∧
    ((modeStep rates acc a).2 = acc.2 → acc.1 ≤ (modeStep rates acc a).1) := by
  simp only [modeStep]
  split_ifs with h1 h2
  · exact ⟨le_of_lt h1, le_refl _, Or.inr ⟨rfl, rfl⟩, fun _ => le_refl a,
      fun hc => absurd (hc ▸ h1) (lt_irrefl _)⟩
  · exact ⟨le_refl _, le_of_eq h2.1, Or.inr ⟨rfl, h2.1⟩, fun _ => le_refl a,
      fun _ => le_of_lt h2.2⟩
  · refine ⟨le_refl _, le_of_not_lt h1, Or.inl rfl, fun hc => ?_, fun _ => le_refl _⟩
    by_contra hlt
    exact h2 ⟨hc, lt_of_not_le hlt⟩

theorem modeFold_spec (rates : List ℚ) (l : List ℚ) (acc : ℚ × ℕ) :
    acc.2 ≤ (List.foldl (modeStep rates) acc l).2 ∧
    (∀ r ∈ l, rates.count r ≤ (List.foldl (modeStep rates) acc l).2) ∧
    (List.foldl (modeStep rates) acc l = acc ∨
      ((List.foldl (modeStep rates) acc l).1 ∈ l ∧
        rates.count (List.foldl (modeStep rates) acc l).1 =
          (List.foldl (modeStep rates) acc l).2)) ∧
    (∀ r ∈ l, rates.count r = (List.foldl (modeStep rates) acc l).2 →
      r ≤ (List.foldl (modeStep rates) acc l).1) ∧
    ((List.foldl (modeStep rates) acc l).2 = acc.2 →
      acc.1 ≤ (List.foldl (modeStep rates) acc l).1) := by
  induction l generalizing acc with
  | nil => exact ⟨le_refl _, by simp, Or.inl rfl, by simp, fun _ => le_refl _⟩
  | cons a t ih =>
    obtain ⟨hs1, hs2, hs3, hs4, hs5⟩ := modeStep_spec rates acc a
    obtain ⟨ih1, ih2, ih3, ih4, ih5⟩ := ih (modeStep rates acc a)
    rw [List.foldl_cons]
    refine ⟨le_trans hs1 ih1, ?_, ?_, ?_, ?_⟩
    · intro r hr
      rcases List.mem_cons.1 hr with h | h
      · subst h
        exact le_trans hs2 ih1
      · exact ih2 r h
    · rcases ih3 with heq | ⟨hm, hc⟩
      · rcases hs3 with heq2 | ⟨hm2, hc2⟩
        · exact Or.inl (heq.trans heq2)
        · refine Or.inr ⟨?_, ?_⟩
          · rw [heq, hm2]
            exact List.mem_cons_self a t
          · rw [heq]
            exact hc2
      · exact Or.inr ⟨List.mem_cons_of_mem a hm, hc⟩
    · intro r hr hcnt
      rcases List.mem_cons.1 hr with h | h
      · subst h
        have hle : rates.count r ≤ (modeStep rates acc r).2 := hs2
        have heq2 : (modeStep rates acc r).2 = (List.foldl (modeStep rates) (modeStep rates acc r) t).2 :=
          le_antisymm ih1 (hcnt ▸ hle)
        exact le_trans (hs4 (le_antisymm hle (heq2 ▸ hcnt ▸ le_refl _))) (ih5 heq2.symm)
      · exact ih4 r h hcnt
    · intro hfold
      have h1 : (modeStep rates acc a).2 = acc.2 :=
        le_antisymm (hfold ▸ ih1) hs1
      exact le_trans (hs5 h1) (ih5 (hfold.trans h1.symm))

theorem maxFold_spec (l : List ℚ) (acc : ℚ) :
    acc ≤ List.foldl (fun m r => if m < r then r else m) acc l ∧
    (∀ r ∈ l, r ≤ List.foldl (fun m r => if m < r then r else m) acc l) ∧
    (List.foldl (fun m r => if m < r then r else m) acc l = acc ∨
      List.foldl (fun m r => if m < r then r else m) acc l ∈ l) := by
  induction l generalizing acc with
  | nil => exact ⟨le_refl _, by simp, Or.inl rfl⟩
  | cons a t ih =>
    obtain ⟨ih1, ih2, ih3⟩ := ih (if acc < a then a else acc)
    have hs1 : acc ≤ if acc < a then a else acc := by split_ifs with h <;> [exact le_of_lt h; exact le_refl _]
    have hs2 : a ≤ if acc < a then a else acc := by
      split_ifs with h
      · exact le_refl a
      · exact le_of_not_lt h
    rw [List.foldl_cons]
    refine ⟨le_trans hs1 ih1, ?_, ?_⟩
    · intro r hr
      rcases List.mem_cons.1 hr with h | h
      · subst h
        exact le_trans hs2 ih1
      · exact ih2 r h
    · rcases ih3 with heq | hm
      · by_cases h : acc < a
        · exact Or.inr (List.mem_cons.2 (Or.inl (by rw [heq, if_pos h])))
        · exact Or.inl (by rw [heq, if_neg h])
      · exact Or.inr (List.mem_cons_of_mem a hm)

/-- C1: for every (payer, code) group present in the rate table, more
than two distinct rounded rates selects the histogram mode (highest
frequency, ties to the higher rate) with method Mode, otherwise the
maximum observed rate with method Max; the recorded frequency is the
mode computation's maximal frequency in both cases. -/
theorem C1_mode_max_selection (claims : List Claim) (payer cpt : String)
    (e : ReimbursementRate)
    (h : calculateReimbursementRates claims payer cpt = some e) :
    e.payer = payer ∧ e.cpt = cpt ∧
    (2 < ((groupRates claims payer cpt).dedup).length →
      e.method = RateMethod.Mode ∧
      e.expectedRate ∈ groupRates claims payer cpt ∧
      (groupRates claims payer cpt).count e.expectedRate = e.frequency ∧
      (∀ r ∈ groupRates claims payer cpt,
        (groupRates claims payer cpt).count r ≤ e.frequency) ∧
      (∀ r ∈ groupRates claims payer cpt,
        (groupRates claims payer cpt).count r = e.frequency → r ≤ e.expectedRate)) ∧
    (((groupRates claims payer cpt).dedup).length ≤ 2 →
      e.method = RateMethod.Max ∧
      e.expectedRate ∈ groupRates claims payer cpt ∧
      (∀ r ∈ groupRates claims payer cpt, r ≤ e.expectedRate) ∧
      (∀ r ∈ groupRates claims payer cpt,
        (groupRates claims payer cpt).count r ≤ e.frequency) ∧
      (∃ r ∈ groupRates claims payer cpt,
        (groupRates claims payer cpt).count r = e.frequency)) := by
  set rates := groupRates claims payer cpt with hrates
  have hne : rates ≠ [] := by
    intro hnil
    rw [calculateReimbursementRates] at h
    simp only [← hrates, hnil] at h
    simp at h
  have hnonneg : ∀ r ∈ rates, 0 ≤ r := by
    intro r hr
    obtain ⟨c, -, -, hq1, hq2, -, -, hr2⟩ := (groupRates_mem claims payer cpt r).1 hr
    exact hr2 ▸ round2_nonneg _ (le_of_lt (div_pos hq1 hq2))
  have he : e = computeRateEntry payer cpt rates rates.dedup := by
    rw [calculateReimbursementRates] at h
    simp only [← hrates] at h
    rw [if_neg hne] at h
    exact (Option.some_inj.1 h).symm
  obtain ⟨mf1, mf2, mf3, mf4, -⟩ := modeFold_spec rates rates.dedup (0, 0)
  have hdedne : rates.dedup ≠ [] := by
    intro hnil
    rcases List.exists_mem_of_ne_nil rates hne with ⟨r, hr⟩
    exact absurd (List.mem_dedup.2 hr) (by rw [hnil]; simp)
  have hmodemem : (List.foldl (modeStep rates) (0, 0) rates.dedup).1 ∈ rates ∧
      rates.count (List.foldl (modeStep rates) (0, 0) rates.dedup).1 =
        (List.foldl (modeStep rates) (0, 0) rates.dedup).2 := by
    rcases mf3 with heq | ⟨hm, hc⟩
    · rcases List.exists_mem_of_ne_nil rates.dedup hdedne with ⟨r, hr⟩
      have h1 : 0 < rates.count r := List.count_pos_iff.2 (List.mem_dedup.1 hr)
      have h2 := mf2 r hr
      rw [heq] at h2
      omega
    · exact ⟨List.mem_dedup.1 hm, hc⟩
  obtain ⟨xf1, xf2, xf3⟩ := maxFold_spec rates 0
  have hmaxmem : List.foldl (fun m r => if m < r then r else m) 0 rates ∈ rates := by
    rcases xf3 with heq | hm
    · rcases List.exists_mem_of_ne_nil rates hne with ⟨r, hr⟩
      have h1 := xf2 r hr
      have h2 := hnonneg r hr
      rw [heq] at h1 ⊢
      exact (le_antisymm h1 h2) ▸ hr
    · exact hm
  subst he
  unfold computeRateEntry
  by_cases hlen : 2 < rates.dedup.length
  · rw [if_pos hlen]
    refine ⟨rfl, rfl, fun _ => ⟨rfl, hmodemem.1, hmodemem.2, ?_, ?_⟩, fun hle => absurd hlen (not_lt.2 hle)⟩
    · intro r hr
      exact mf2 r (List.mem_dedup.2 hr)
    · intro r hr hcnt
      exact mf4 r (List.mem_dedup.2 hr) hcnt
  · rw [if_neg hlen]
    refine ⟨rfl, rfl, fun hgt => absurd hgt hlen, fun _ => ⟨rfl, hmaxmem, ?_, ?_, ?_⟩⟩
    · intro r hr
      exact xf2 r hr
    · intro r hr
      exact mf2 r (List.mem_dedup.2 hr)
    · exact ⟨_, hmodemem.1, hmodemem.2⟩

/-- Witness for C1 on the spec's tie-break history [10, 10, 10, 20,
20, 20, 30]: the produced entry is the Mode entry at rate 20 with
frequency 3. -/
theorem C1_mode_max_selection_witness :
    calculateReimbursementRates tieClaims "P" "C" =
      some { payer := "P", cpt := "C", expectedRate := 20, method := RateMethod.Mode,
             frequency := 3 } ∧
    ({ payer := "P", cpt := "C", expectedRate := 20, method := RateMethod.Mode,
       frequency := 3 : ReimbursementRate }).method = RateMethod.Mode := by
  have h : calculateReimbursementRates tieClaims "P" "C" =
      some { payer := "P", cpt := "C", expectedRate := 20, method := RateMethod.Mode,
             frequency := 3 } := by decide
  exact ⟨h, ((C1_mode_max_selection tieClaims "P" "C" _ h).2.2.1 (by decide)).1⟩

/-! Claim C3: the denial opportunity aggregation. -/

theorem denialFold_lookup (rates : String → String → Option ReimbursementRate)
    (l : List Claim) (m : String → Option PayerDenialStats) (payer : String) :
    List.foldl (denialStep rates) m l payer =
      (if (l.filter (fun c => c.payer == payer)).isEmpty then m payer
       else
         some { payer := ((m payer).getD
                  { payer := payer, deniedUnits := 0, deniedValue := 0, projectedValue := 0 }).payer
                deniedUnits := ((m payer).getD
                  { payer := payer, deniedUnits := 0, deniedValue := 0, projectedValue := 0 }).deniedUnits +
                  ((l.filter (fun c => c.payer == payer)).map (fun c => c.units)).sum
                deniedValue := ((m payer).getD
                  { payer := payer, deniedUnits := 0, deniedValue := 0, projectedValue := 0 }).deniedValue +
                  ((l.filter (fun c => c.payer == payer)).map (fun c => c.charge)).sum
                projectedValue := ((m payer).getD
                  { payer := payer, deniedUnits := 0, deniedValue := 0, projectedValue := 0 }).projectedValue +
                  ((l.filter (fun c => c.payer == payer)).map (projectedFor rates)).sum }) := by
  induction l generalizing m with
  | nil => simp
  | cons c t ih =>
    rw [List.foldl_cons, ih (denialStep rates m c), List.filter_cons]
    by_cases hc : c.payer = payer
    · have hstep : denialStep rates m c payer =
          some { payer := ((m payer).getD
                   { payer := payer, deniedUnits := 0, deniedValue := 0, projectedValue := 0 }).payer
                 deniedUnits := ((m payer).getD
                   { payer := payer, deniedUnits := 0, deniedValue := 0, projectedValue := 0 }).deniedUnits + c.units
                 deniedValue := ((m payer).getD
                   { payer := payer, deniedUnits := 0, deniedValue := 0, projectedValue := 0 }).deniedValue + c.charge
                 projectedValue := ((m payer).getD
                   { payer := payer, deniedUnits := 0, deniedValue := 0, projectedValue := 0 }).projectedValue +
                   projectedFor rates c } := by
        unfold denialStep
        rw [if_pos hc.symm, hc]
      by_cases hte : (t.filter (fun c => c.payer == payer)).isEmpty
      · simp only [hc, beq_self_eq_true, if_pos, hte, if_true, hstep, Option.getD_some,
          List.map_cons, List.sum_cons]
        have htnil : t.filter (fun c => c.payer == payer) = [] := by
          simpa [List.isEmpty_iff] using hte
        simp [htnil]
      · simp only [hc, beq_self_eq_true, if_pos, hte, if_false, hstep, Option.getD_some,
          List.map_cons, List.sum_cons]
        refine congrArg some ?_
        simp only [PayerDenialStats.mk.injEq]
        refine ⟨by trivial, by ring, by ring, by ring⟩
    · have hstep : denialStep rates m c payer = m payer := by
        unfold denialStep
        rw [if_neg (fun hpc => hc hpc.symm)]
      have hbeq : (c.payer == payer) = false := by
        simpa using hc
      simp [hbeq, hstep]

theorem projected_sum_filter (rates : String → String → Option ReimbursementRate)
    (l : List Claim) :
    (l.map (projectedFor rates)).sum =
      ((l.filter (fun c => (rates c.payer c.cpt).isSome)).map
        (fun c => c.units * ((rates c.payer c.cpt).getD
          { payer := "", cpt := "", expectedRate := 0, method := RateMethod.None,
            frequency := 0 }).expectedRate)).sum := by
  induction l with
  | nil => rfl
  | cons c t ih =>
    rw [List.map_cons, List.sum_cons, List.filter_cons]
    cases hrc : rates c.payer c.cpt with
    | none => simp [projectedFor, hrc, ih]
    | some e => simp [projectedFor, hrc, ih]

/-- C3: a payer has a denial stat exactly when it has an unpaid claim;
its deniedUnits and deniedValue are the sums of units and billed
charges of its unpaid claims, and projectedValue sums units times
expected rate over exactly the unpaid claims whose (payer, code) has a
rate-table entry, claims without an entry contributing nothing. -/
theorem C3_denial_opportunity (claims : List Claim)
    (rates : String → String → Option ReimbursementRate) (payer : String) :
    (calculateDenialOpportunity claims rates payer = none ↔
      ∀ c ∈ claims, c.isPaid = false → c.payer ≠ payer) ∧
    (∀ s, calculateDenialOpportunity claims rates payer = some s →
      s.payer = payer ∧
      s.deniedUnits = (((claims.filter (fun c => !c.isPaid)).filter
        (fun c => c.payer == payer)).map (fun c => c.units)).sum ∧
      s.deniedValue = (((claims.filter (fun c => !c.isPaid)).filter
        (fun c => c.payer == payer)).map (fun c => c.charge)).sum ∧
      s.projectedValue = ((((claims.filter (fun c => !c.isPaid)).filter
        (fun c => c.payer == payer)).filter
          (fun c => (rates c.payer c.cpt).isSome)).map
        (fun c => c.units * ((rates c.payer c.cpt).getD
          { payer := "", cpt := "", expectedRate := 0, method := RateMethod.None,
            frequency := 0 }).expectedRate)).sum) := by
  have hlook := denialFold_lookup rates (claims.filter (fun c => !c.isPaid)) (fun _ => none) payer
  constructor
  · rw [calculateDenialOpportunity, hlook]
    by_cases he : ((claims.filter (fun c => !c.isPaid)).filter (fun c => c.payer == payer)).isEmpty
    · rw [if_pos he]
      simp only [true_iff]
      intro c hc hunpaid hpayer
      have : c ∈ (claims.filter (fun c => !c.isPaid)).filter (fun c => c.payer == payer) := by
        rw [List.mem_filter, List.mem_filter]
        exact ⟨⟨hc, by rw [hunpaid]; rfl⟩, by rw [hpayer]; exact beq_self_eq_true payer⟩
      rw [List.isEmpty_iff] at he
      rw [he] at this
      exact absurd this (List.not_mem_nil c)
    · rw [if_neg he]
      simp only [reduceCtorEq, false_iff, not_forall]
      rw [List.isEmpty_iff] at he
      rcases List.exists_mem_of_ne_nil _ he with ⟨c, hcmem⟩
      rw [List.mem_filter, List.mem_filter] at hcmem
      refine ⟨c, hcmem.1.1, ?_, ?_⟩
      · cases hu : c.isPaid
        · rfl
        · rw [hu] at hcmem
          simp at hcmem
      · simpa using hcmem.2
  · intro s hs
    rw [calculateDenialOpportunity, hlook] at hs
    by_cases he : ((claims.filter (fun c => !c.isPaid)).filter (fun c => c.payer == payer)).isEmpty
    · rw [if_pos he] at hs
      exact absurd hs (by simp)
    · rw [if_neg he] at hs
      have hsv := Option.some_inj.1 hs
      rw [← hsv]
      refine ⟨rfl, by simp, by simp, ?_⟩
      simp only [Option.getD_none]
      rw [zero_add]
      exact projected_sum_filter rates _

/-- Witness for C3: an unpaid 3-unit claim against the tie-break
history projects 3 x 20 = 60. -/
theorem C3_denial_opportunity_witness :
    calculateDenialOpportunity (deniedClaim :: tieClaims)
      (calculateReimbursementRates tieClaims) "P" =
      some { payer := "P", deniedUnits := 3, deniedValue := 0, projectedValue := 60 } ∧
    ({ payer := "P", deniedUnits := 3, deniedValue := 0, projectedValue := 60 :
        PayerDenialStats }).payer = "P" := by
  have h : calculateDenialOpportunity (deniedClaim :: tieClaims)
      (calculateReimbursementRates tieClaims) "P" =
      some { payer := "P", deniedUnits := 3, deniedValue := 0, projectedValue := 60 } := by
    decide
  exact ⟨h, ((C3_denial_opportunity (deniedClaim :: tieClaims)
    (calculateReimbursementRates tieClaims) "P").2 _ h).1⟩

/-! Claim C9: the payer recorded on a patient stat. -/

theorem bumpLastVisit_payer (dos : Option JsDate) (p : PatientStat) :
    (bumpLastVisit dos p).payer = p.payer := by
  unfold bumpLastVisit
  split
  · rfl
  · split_ifs <;> rfl
  · rfl

theorem patientStep_self (m : String → Option PatientStat) (c : Claim) :
    ∃ q, patientStep m c c.patientId = some q ∧
      q.payer = ((m c.patientId).getD
        { patientName := c.patientName, patientId := c.patientId, totalVisits := 0
          totalRevenue := 0, lastVisit := none, payer := c.payer }).payer := by
  refine ⟨_, by rw [patientStep, if_pos rfl], ?_⟩
  rw [bumpLastVisit_payer]

theorem patientFold_payer (l : List Claim) (m : String → Option PatientStat) (pid : String) :
    ((List.foldl patientStep m l) pid).map (fun p => p.payer) =
      (match m pid with
       | some p => some p.payer
       | none => (l.find? (fun c => c.patientId == pid)).map (fun c => c.payer)) := by
  induction l generalizing m with
  | nil =>
    cases hm : m pid <;> simp [hm]
  | cons c t ih =>
    rw [List.foldl_cons, ih (patientStep m c)]
    by_cases hc : c.patientId = pid
    · subst hc
      obtain ⟨q, hq, hqp⟩ := patientStep_self m c
      rw [hq]
      cases hm : m c.patientId with
      | none =>
        simp only [hm, Option.getD_none] at hqp
        simp [hqp, List.find?_cons_of_pos]
      | some p =>
        simp only [hm, Option.getD_some] at hqp
        simp [hm, hqp]
    · have hstep : patientStep m c pid = m pid := by
        have hne : ¬(pid = c.patientId) := fun h => hc h.symm
        simp only [patientStep]
        rw [if_neg hne]
      have hbeq : (c.patientId == pid) = false := by simpa using hc
      rw [hstep, List.find?_cons_of_neg _ (by simp [hbeq])]

/-- Counterexample for C9 as stated: with two claims of patient P,
first with payer A and last with payer B, the stat's payer is A, the
payer of the first-processed claim, not of the last-processed one. -/
theorem C9_last_payer_counterexample :
    (analyzePatients [firstPayerClaim, lastPayerClaim] "P").map (fun p => p.payer) = some "A" ∧
    [firstPayerClaim, lastPayerClaim].getLast?.map (fun c => c.payer) = some "B" ∧
    ("A" : String) ≠ "B" := by
  refine ⟨by decide, by decide, by decide⟩

/-- C9 as amended: the patient stat's payer is the payer of the first
claim of that patient in the input order, the claim that created the
running record. -/
theorem C9_payer_first_claim (claims : List Claim) (pid : String) (s : PatientStat)
    (h : analyzePatients claims pid = some s) :
    ∃ c, claims.find? (fun c => c.patientId == pid) = some c ∧ s.payer = c.payer := by
  have hfold := patientFold_payer claims (fun _ => none) pid
  rw [analyzePatients] at h
  cases hm : (List.foldl patientStep (fun _ => none) claims) pid with
  | none =>
    rw [hm] at h
    exact absurd h (by simp)
  | some p =>
    rw [hm] at h hfold
    simp only [Option.map_some] at h hfold
    cases hf : claims.find? (fun c => c.patientId == pid) with
    | none =>
      rw [hf] at hfold
      exact absurd hfold (by simp)
    | some c =>
      rw [hf] at hfold
      refine ⟨c, rfl, ?_⟩
      have hs : s.payer = p.payer := by
        rw [← Option.some_inj.1 h]
      rw [hs]
      simpa using hfold

/-- Witness for C9 at a single-claim input: the stat's payer is the
payer of the first (and only) claim of patient P. -/
theorem C9_payer_first_claim_witness :
    [firstPayerClaim].find? (fun c => c.patientId == "P") = some firstPayerClaim ∧
    (∃ c, [firstPayerClaim].find? (fun c => c.patientId == "P") = some c ∧
      ({ patientName := "N", patientId := "P", totalVisits := 1, totalRevenue := 5,
         lastVisit := none, payer := "A" : PatientStat }).payer = c.payer) := by
  refine ⟨by decide, C9_payer_first_claim [firstPayerClaim] "P" _ (by decide)⟩

/-! Claim C5: the mandatory procedure-code column and row acceptance. -/

theorem rowsToClaims_eq_enum (dp : String → Option JsDate) (fb : String) (icpt : ℕ)
    (idx : ColIdx) (n : ℕ) (rows : List (List String)) :
    rowsToClaims dp fb icpt idx n rows =
      (List.enumFrom n (rows.filter (keepRow icpt))).map
        (fun p => mkClaim dp fb icpt idx p.1 p.2) := by
  induction rows generalizing n with
  | nil => rfl
  | cons r t ih =>
    rw [rowsToClaims, List.filter_cons]
    by_cases hk : keepRow icpt r
    · rw [if_pos hk, if_pos hk, List.enumFrom, List.map_cons, ih (n + 1)]
    · rw [if_neg hk, if_neg hk, ih n]

/-- C5 as amended: when the tokenized input has at least two rows, a
header with none of the procedure-code candidate names is a hard
error, and the presence of a procedure-code column makes the parse
total, keeping exactly the rows whose procedure-code cell is non-empty
after trimming (with ids counted along the kept rows); inputs that
tokenize to fewer than two rows return an empty list without any
error, even when the header lacks the column. -/
theorem C5_cpt_column_contract (dp : String → Option JsDate) (text fallback : String) :
    ((parseCSVLine text (detectDelimiter text)).length < 2 →
      parseClaimsData dp text fallback = Except.ok []) ∧
    (2 ≤ (parseCSVLine text (detectDelimiter text)).length →
      findIdx (resolvedHeader text) cptCandidates = none →
      parseClaimsData dp text fallback =
        Except.error "Could not find a CPT column header in CSV.") ∧
    (∀ icpt, 2 ≤ (parseCSVLine text (detectDelimiter text)).length →
      findIdx (resolvedHeader text) cptCandidates = some icpt →
      parseClaimsData dp text fallback = Except.ok
        ((List.enumFrom 1
          (((parseCSVLine text (detectDelimiter text)).drop 1).filter (keepRow icpt))).map
          (fun p => mkClaim dp fallback icpt (resolveCols (resolvedHeader text)) p.1 p.2))) := by
  refine ⟨?_, ?_, ?_⟩
  · intro hlt
    rw [parseClaimsData]
    simp only [if_pos hlt]
  · intro hge hnone
    rw [parseClaimsData]
    simp only [if_neg (not_lt.2 hge)]
    rw [hnone]
  · intro icpt hge hsome
    rw [parseClaimsData]
    simp only [if_neg (not_lt.2 hge)]
    rw [hsome]
    exact congrArg Except.ok (rowsToClaims_eq_enum dp fallback icpt _ 1 _)

/-- Witness for C5: a two-row input whose header has no
procedure-code candidate raises the hard error. -/
theorem C5_cpt_column_contract_witness :
    parseClaimsData noDateParse "name,price\n1,2" "" =
      Except.error "Could not find a CPT column header in CSV." :=
  (C5_cpt_column_contract noDateParse "name,price\n1,2" "").2.1 (by decide) (by decide)

/-- Counterexample for C5 as stated: a one-line input whose header
contains none of the candidate names returns an empty ok result, not
the hard error the claim requires for every input text. -/
theorem C5_short_input_counterexample :
    parseClaimsData noDateParse "name,price" "" = Except.ok [] ∧
    findIdx (resolvedHeader "name,price") cptCandidates = none ∧
    (∀ e : String, parseClaimsData noDateParse "name,price" "" ≠ Except.error e) := by
  refine ⟨rfl, by decide, ?_⟩
  intro e he
  rw [show parseClaimsData noDateParse "name,price" "" = Except.ok [] from rfl] at he
  exact absurd he (by simp)

/-! Claim C4: invariants of parsed claims. -/

theorem ratAbs_nonneg (q : ℚ) : 0 ≤ ratAbs q := by
  unfold ratAbs
  split_ifs with h
  · linarith
  · exact le_of_not_lt h

theorem mkClaim_invariants (dp : String → Option JsDate) (fb : String) (icpt : ℕ)
    (idx : ColIdx) (n : ℕ) (row : List String) (h : keepRow icpt row = true) :
    0 ≤ (mkClaim dp fb icpt idx n row).paid ∧
    (mkClaim dp fb icpt idx n row).cpt ≠ "" ∧
    jsToUpper (mkClaim dp fb icpt idx n row).cpt = (mkClaim dp fb icpt idx n row).cpt ∧
    (mkClaim dp fb icpt idx n row).codeType =
      determineCodeType (mkClaim dp fb icpt idx n row).cpt := by
  have hpaid : (mkClaim dp fb icpt idx n row).paid =
      ratAbs (normalizeMoney (getCell row idx.paid)) := rfl
  have hcpt : (mkClaim dp fb icpt idx n row).cpt = jsToUpper (jsTrim (row.getD icpt "")) := rfl
  have hct : (mkClaim dp fb icpt idx n row).codeType =
      determineCodeType (jsTrim (row.getD icpt "")) := rfl
  refine ⟨hpaid ▸ ratAbs_nonneg _, ?_, ?_, ?_⟩
  · rw [hcpt]
    intro hempty
    rw [jsToUpper_eq_empty_iff] at hempty
    simp only [keepRow, ne_eq, decide_eq_true_eq] at h
    exact h hempty
  · rw [hcpt, jsToUpper_jsToUpper]
  · rw [hcpt, hct, determineCodeType_jsToUpper]

theorem rowsToClaims_invariants (dp : String → Option JsDate) (fb : String) (icpt : ℕ)
    (idx : ColIdx) :
    ∀ (n : ℕ) (rows : List (List String)), ∀ c ∈ rowsToClaims dp fb icpt idx n rows,
      0 ≤ c.paid ∧ c.cpt ≠ "" ∧ jsToUpper c.cpt = c.cpt ∧
        c.codeType = determineCodeType c.cpt := by
  intro n rows
  induction rows generalizing n with
  | nil => intro c hc; exact absurd hc (List.not_mem_nil c)
  | cons r t ih =>
    intro c hc
    rw [rowsToClaims] at hc
    by_cases hk : keepRow icpt r
    · rw [if_pos hk] at hc
      rcases List.mem_cons.1 hc with h | h
      · exact h ▸ mkClaim_invariants dp fb icpt idx n r hk
      · exact ih (n + 1) c h
    · rw [if_neg hk] at hc
      exact ih n c hc

theorem mkPaymentClaim_invariants (dp : String → Option JsDate) (hm : String → Option ℕ)
    (prov : String) (n : ℕ) (row : List String) :
    0 ≤ (mkPaymentClaim dp hm prov n row).paid ∧
    jsToUpper (mkPaymentClaim dp hm prov n row).cpt = (mkPaymentClaim dp hm prov n row).cpt ∧
    (mkPaymentClaim dp hm prov n row).codeType =
      determineCodeType (mkPaymentClaim dp hm prov n row).cpt := by
  have hpaid : (mkPaymentClaim dp hm prov n row).paid =
      ratAbs (normalizeMoney (getCell row (hm "applied payments"))) := rfl
  have hcpt : (mkPaymentClaim dp hm prov n row).cpt =
      jsToUpper (jsTrim (getCell row (hm "cpt"))) := rfl
  have hct : (mkPaymentClaim dp hm prov n row).codeType =
      determineCodeType (jsToUpper (jsTrim (getCell row (hm "cpt")))) := rfl
  exact ⟨hpaid ▸ ratAbs_nonneg _, by rw [hcpt, jsToUpper_jsToUpper], by rw [hct, hcpt]⟩

theorem paymentGo_invariants (dp : String → Option JsDate) (hm : String → Option ℕ) :
    ∀ (prov : String) (n : ℕ) (rows : List (List String)), ∀ c ∈ paymentGo dp hm prov n rows,
      0 ≤ c.paid ∧ jsToUpper c.cpt = c.cpt ∧ c.codeType = determineCodeType c.cpt := by
  intro prov n rows
  induction rows generalizing prov n with
  | nil => intro c hc; exact absurd hc (List.not_mem_nil c)
  | cons r t ih =>
    intro c hc
    rw [paymentGo] at hc
    split_ifs at hc with h1 h2 h3 h4
    · exact ih prov n c hc
    · exact ih _ n c hc
    · exact ih prov n c hc
    · rcases List.mem_cons.1 hc with h | h
      · exact h ▸ mkPaymentClaim_invariants dp hm prov n r
      · exact ih prov (n + 1) c h
    · exact ih prov n c hc

theorem mkVisitClaim_invariants (dp : String → Option JsDate) (hm : String → Option ℕ)
    (fb : String) (info : PInfo) (n : ℕ) (row : List String)
    (h : visitAccepts hm row = true) :
    0 ≤ (mkVisitClaim dp hm fb info n row).paid ∧
    (mkVisitClaim dp hm fb info n row).cpt ≠ "" ∧
    jsToUpper (mkVisitClaim dp hm fb info n row).cpt = (mkVisitClaim dp hm fb info n row).cpt ∧
    (mkVisitClaim dp hm fb info n row).codeType =
      determineCodeType (mkVisitClaim dp hm fb info n row).cpt := by
  have hpaid : (mkVisitClaim dp hm fb info n row).paid =
      ratAbs (normalizeMoney (getCell row (hm "insurance payment"))) := rfl
  have hcpt : (mkVisitClaim dp hm fb info n row).cpt =
      jsToUpper (jsTrim (getCell row (hm "cpt"))) := rfl
  have hct : (mkVisitClaim dp hm fb info n row).codeType =
      determineCodeType (jsTrim (getCell row (hm "cpt"))) := rfl
  have hne : jsTrim (getCell row (hm "cpt")) ≠ "" := by
    rw [visitAccepts] at h
    simp only [Bool.and_eq_true, ne_eq, decide_eq_true_eq] at h
    exact h.2
  refine ⟨hpaid ▸ ratAbs_nonneg _, ?_, ?_, ?_⟩
  · rw [hcpt]
    intro hempty
    exact hne (jsToUpper_eq_empty_iff _ |>.1 hempty)
  · rw [hcpt, jsToUpper_jsToUpper]
  · rw [hcpt, hct, determineCodeType_jsToUpper]

theorem visitGo_invariants (dp : String → Option JsDate) (hm : String → Option ℕ)
    (fb : String) :
    ∀ (info : PInfo) (n : ℕ) (rows : List (List String)), ∀ c ∈ visitGo dp hm fb info n rows,
      0 ≤ c.paid ∧ c.cpt ≠ "" ∧ jsToUpper c.cpt = c.cpt ∧
        c.codeType = determineCodeType c.cpt := by
  intro info n rows
  induction rows generalizing info n with
  | nil => intro c hc; exact absurd hc (List.not_mem_nil c)
  | cons r t ih =>
    intro c hc
    rw [visitGo] at hc
    split_ifs at hc with h1 h2 h3 h4 h5
    · exact ih info n c hc
    · exact ih info n c hc
    · exact ih _ n c hc
    · exact ih _ n c hc
    · rcases List.mem_cons.1 hc with h | h
      · exact h ▸ mkVisitClaim_invariants dp hm fb info n r h5
      · exact ih info (n + 1) c h
    · exact ih info n c hc

/-- C4 as amended: every claim from `parseClaimsData` has a
non-negative absolute payment, a non-empty uppercase procedure code
and a code class that is the pure classification of that code; claims
from `parseExcelReport` satisfy the same, with the procedure code also
non-empty in the Visit-Report layout, while the Payment-Report layout
can emit an empty code from a whitespace-only cell.  Units and charge
are not clamped and may be negative. -/
theorem C4_claim_invariants (dp : String → Option JsDate) (text fallback : String)
    (grid : List (List String)) (fb2 : String) :
    (∀ cs, parseClaimsData dp text fallback = Except.ok cs → ∀ c ∈ cs,
      0 ≤ c.paid ∧ c.cpt ≠ "" ∧ jsToUpper c.cpt = c.cpt ∧
        c.codeType = determineCodeType c.cpt) ∧
    (∀ cs, parseExcelReport dp grid fb2 = Except.ok cs → ∀ c ∈ cs,
      0 ≤ c.paid ∧ jsToUpper c.cpt = c.cpt ∧ c.codeType = determineCodeType c.cpt) ∧
    (∀ hIdx cs, findHeaderRow grid = some hIdx →
      (headerLookup (grid.getD hIdx []) "applied payments").isSome = false →
      parseExcelReport dp grid fb2 = Except.ok cs → ∀ c ∈ cs, c.cpt ≠ "") := by
  refine ⟨?_, ?_, ?_⟩
  · intro cs hcs c hc
    rw [parseClaimsData] at hcs
    split_ifs at hcs with hlen
    · simp only [Except.ok.injEq] at hcs
      rw [← hcs] at hc
      exact absurd hc (List.not_mem_nil c)
    · cases hfind : findIdx (resolvedHeader text) cptCandidates with
      | none => rw [hfind] at hcs; exact absurd hcs (by simp)
      | some icpt =>
        rw [hfind] at hcs
        have hok : cs = rowsToClaims dp fallback icpt (resolveCols (resolvedHeader text)) 1
            ((parseCSVLine text (detectDelimiter text)).drop 1) := by
          have := hcs
          simp only [Except.ok.injEq] at this
          exact this.symm
        rw [hok] at hc
        exact rowsToClaims_invariants dp fallback icpt _ 1 _ c hc
  · intro cs hcs c hc
    rw [parseExcelReport] at hcs
    cases hh : findHeaderRow grid with
    | none => rw [hh] at hcs; exact absurd hcs (by simp)
    | some hIdx =>
      rw [hh] at hcs
      dsimp only at hcs
      by_cases hpay : (headerLookup (grid.getD hIdx []) "applied payments").isSome
      · rw [if_pos hpay] at hcs
        simp only [Except.ok.injEq] at hcs
        rw [← hcs] at hc
        obtain ⟨h1, h2, h3⟩ := paymentGo_invariants dp _ fb2 1 _ c hc
        exact ⟨h1, h2, h3⟩
      · rw [if_neg hpay] at hcs
        simp only [Except.ok.injEq] at hcs
        rw [← hcs] at hc
        obtain ⟨h1, -, h2, h3⟩ := visitGo_invariants dp _ fb2 ⟨"", "", "", ""⟩ 1 _ c hc
        exact ⟨h1, h2, h3⟩
  · intro hIdx cs hh hpay hcs c hc
    rw [parseExcelReport] at hcs
    rw [hh] at hcs
    dsimp only at hcs
    have hpay2 : ¬((headerLookup (grid.getD hIdx []) "applied payments").isSome = true) := by
      rw [hpay]; exact Bool.false_ne_true
    rw [if_neg hpay2] at hcs
    simp only [Except.ok.injEq] at hcs
    rw [← hcs] at hc
    exact (visitGo_invariants dp _ fb2 ⟨"", "", "", ""⟩ 1 _ c hc).2.1

/-- Counterexample for C4 as stated: a parenthesized charge cell
yields a negative charge, a negative units cell yields negative units,
and a whitespace-only CPT cell in the Payment-Report layout yields an
empty procedure code. -/
theorem C4_invariants_counterexample :
    ((parseClaimsData noDateParse "cpt,charges,units\nB4,(500),-2" "").toOption.getD []).map
      (fun c => (c.charge, c.units)) = [((-500 : ℚ), (-2 : ℚ))] ∧
    ((-500 : ℚ) < 0 ∧ (-2 : ℚ) < 0) ∧
    ((parseExcelReport noDateParse [["dos", "cpt", "applied payments"],
      ["1/5/2024", " ", "5"]] "").toOption.getD []).map (fun c => c.cpt) = [""] := by
  exact ⟨by decide, by decide, by decide⟩

/-- Witness for C4 on the end-to-end CSV scenario of the spec. -/
theorem C4_claim_invariants_witness :
    parseClaimsData noDateParse "cpt,units\na4550,2" "" =
      Except.ok (rowsToClaims noDateParse "" 0 (resolveCols (resolvedHeader "cpt,units\na4550,2")) 1
        ((parseCSVLine "cpt,units\na4550,2" (detectDelimiter "cpt,units\na4550,2")).drop 1)) ∧
    (∀ c ∈ rowsToClaims noDateParse "" 0 (resolveCols (resolvedHeader "cpt,units\na4550,2")) 1
        ((parseCSVLine "cpt,units\na4550,2" (detectDelimiter "cpt,units\na4550,2")).drop 1),
      0 ≤ c.paid ∧ c.cpt ≠ "" ∧ jsToUpper c.cpt = c.cpt ∧
        c.codeType = determineCodeType c.cpt) :=
  ⟨rfl, (C4_claim_invariants noDateParse "cpt,units\na4550,2" "" [] "").1 _ rfl⟩

/-! Claim C7: the date normalizer. -/

theorem addDaysN_within (y m : ℤ) :
    ∀ (k : ℕ) (d : ℤ), 1 ≤ d → d + k ≤ daysInMonth y m →
      addDaysN k ⟨y, m, d⟩ = ⟨y, m, d + k⟩ := by
  intro k
  induction k with
  | zero =>
    intro d h1 h2
    rw [addDaysN]
    simp
  | succ k ih =>
    intro d h1 h2
    rw [addDaysN, show succDate ⟨y, m, d⟩ = ⟨y, m, d + 1⟩ from by
      rw [succDate]
      have : d < daysInMonth y m := by omega
      simp [this]]
    rw [ih (d + 1) (by omega) (by omega)]
    congr 1
    omega

theorem jsMakeDate_valid (y m d : ℤ) (hm1 : 1 ≤ m) (hm2 : m ≤ 12) (hd1 : 1 ≤ d)
    (hd2 : d ≤ daysInMonth (if 0 ≤ y ∧ y ≤ 99 then y + 1900 else y) m) :
    jsMakeDate y (m - 1) d = ⟨if 0 ≤ y ∧ y ≤ 99 then y + 1900 else y, m, d⟩ := by
  have hfdiv : (m - 1).fdiv 12 = 0 := by interval_cases m <;> decide
  have hemod : (m - 1).emod 12 = m - 1 := by interval_cases m <;> decide
  simp only [jsMakeDate, hfdiv, hemod, add_zero]
  rw [if_pos (by omega : (0 : ℤ) ≤ d - 1)]
  rw [show m - 1 + 1 = m from by omega]
  rw [addDaysN_within _ m (d - 1).toNat 1 (le_refl 1) (by omega)]
  congr 1
  omega

/-- C7 as amended: the examples 2024-03-05 and 3/5/24 both yield March
5, 2024 (two-digit years expanding to 2000+); for any ISO- or
US-matching string whose components form a valid calendar date the
constructed date has exactly the components of the string (the
constructor treating years 0-99 as 1900+); any other non-empty string
goes to the host fallback parse and an empty string is no date (never
an error); out-of-range components are normalized by calendar
arithmetic rather than preserved. -/
theorem C7_date_normalizer (dp : String → Option JsDate) :
    (parseDOS dp "2024-03-05" = some ⟨2024, 3, 5⟩ ∧
     parseDOS dp "3/5/24" = some ⟨2024, 3, 5⟩) ∧
    (∀ (s : String) (y m d : ℕ), isoMatch (jsTrim s) = some (y, m, d) → s ≠ "" →
      1 ≤ m → m ≤ 12 → 1 ≤ d →
      (d : ℤ) ≤ daysInMonth (if (y : ℤ) ≤ 99 then (y : ℤ) + 1900 else (y : ℤ)) m →
      parseDOS dp s = some ⟨if (y : ℤ) ≤ 99 then (y : ℤ) + 1900 else (y : ℤ), m, d⟩) ∧
    (∀ (s : String) (mm dd yy : ℕ), usMatch (jsTrim s) = some (mm, dd, yy) → s ≠ "" →
      isoMatch (jsTrim s) = none → 1 ≤ mm → mm ≤ 12 → 1 ≤ dd →
      (dd : ℤ) ≤ daysInMonth (if yy < 100 then (yy : ℤ) + 2000 else (yy : ℤ)) mm →
      parseDOS dp s = some ⟨if yy < 100 then (yy : ℤ) + 2000 else (yy : ℤ), mm, dd⟩) ∧
    (∀ s : String, s ≠ "" → isoMatch (jsTrim s) = none → usMatch (jsTrim s) = none →
      parseDOS dp s = dp (jsTrim s)) ∧
    parseDOS dp "" = none := by
  refine ⟨⟨rfl, rfl⟩, ?_, ?_, ?_, rfl⟩
  · intro s y m d hiso hs hm1 hm2 hd1 hd2
    rw [parseDOS, if_neg hs, hiso]
    dsimp only
    have hy : (if 0 ≤ (y : ℤ) ∧ (y : ℤ) ≤ 99 then (y : ℤ) + 1900 else (y : ℤ)) =
        (if (y : ℤ) ≤ 99 then (y : ℤ) + 1900 else (y : ℤ)) := by
      split_ifs <;> omega
    rw [jsMakeDate_valid (y : ℤ) (m : ℤ) (d : ℤ) (by exact_mod_cast hm1) (by exact_mod_cast hm2)
      (by exact_mod_cast hd1) (by rw [hy]; exact hd2)]
    rw [hy]
  · intro s mm dd yy hus hs hiso hm1 hm2 hd1 hd2
    rw [parseDOS, if_neg hs, hiso, hus]
    dsimp only
    have hy : (if 0 ≤ (if yy < 100 then (yy : ℤ) + 2000 else (yy : ℤ)) ∧
        (if yy < 100 then (yy : ℤ) + 2000 else (yy : ℤ)) ≤ 99 then
          (if yy < 100 then (yy : ℤ) + 2000 else (yy : ℤ)) + 1900
        else (if yy < 100 then (yy : ℤ) + 2000 else (yy : ℤ))) =
        (if yy < 100 then (yy : ℤ) + 2000 else (yy : ℤ)) := by
      split_ifs <;> omega
    rw [jsMakeDate_valid _ (mm : ℤ) (dd : ℤ) (by exact_mod_cast hm1) (by exact_mod_cast hm2)
      (by exact_mod_cast hd1) (by rw [hy]; exact hd2)]
    rw [hy]
  · intro s hs hiso hus
    rw [parseDOS, if_neg hs, hiso, hus]

/-- Witness for C7 at a valid ISO date with 31 days. -/
theorem C7_date_normalizer_witness :
    parseDOS noDateParse "1999-12-31" = some ⟨1999, 12, 31⟩ :=
  (C7_date_normalizer noDateParse).2.1 "1999-12-31" 1999 12 31 (by decide) (by decide)
    (by decide) (by decide) (by decide) (by decide)

set_option maxRecDepth 2000 in
/-- Counterexample for C7 as stated: the ISO-shaped string 2024-02-31
is constructed as March 2, 2024, so the day-of-month 31 of the input
string is not preserved. -/
theorem C7_rollover_counterexample :
    parseDOS noDateParse "2024-02-31" = some ⟨2024, 3, 2⟩ ∧
    ((2 : ℤ) ≠ 31 ∧ (3 : ℤ) ≠ 2) := ⟨by decide, by decide, by decide⟩


/-! Claim C8: the CSV quoting round trip. -/

theorem csvAux_quoted (cs : List Char) :
    ∀ f : List Char,
      csvAux ',' ((cs.flatMap (fun c => if c = '"' then ['"', '"'] else [c])) ++ ['"']) true f [] [] =
        if f ++ cs = [] then [] else [[⟨f ++ cs⟩]] := by
  induction cs with
  | nil =>
    intro f
    rw [List.flatMap_nil, List.nil_append,
      csvAux.eq_3 ',' f [] [] [] (by intro r h; exact absurd h (by simp)),
      csvAux.eq_1, List.append_nil]
    by_cases hf : f = []
    · simp [hf]
    · simp [hf]
  | cons c t ih =>
    intro f
    by_cases hc : c = '"'
    · subst hc
      rw [List.flatMap_cons, if_pos rfl]
      rw [show (['"', '"'] ++ t.flatMap (fun c => if c = '"' then ['"', '"'] else [c])) ++ ['"'] =
        '"' :: '"' :: (t.flatMap (fun c => if c = '"' then ['"', '"'] else [c]) ++ ['"']) from rfl]
      rw [csvAux.eq_2, ih (f ++ ['"'])]
      simp [List.append_assoc]
    · rw [List.flatMap_cons, if_neg hc]
      rw [show ([c] ++ t.flatMap (fun c => if c = '"' then ['"', '"'] else [c])) ++ ['"'] =
        c :: (t.flatMap (fun c => if c = '"' then ['"', '"'] else [c]) ++ ['"']) from rfl]
      rw [csvAux.eq_4 ',' f [] [] c _ (fun r h1 _ => hc h1) hc, ih (f ++ [c])]
      simp [List.append_assoc]

theorem csvAux_plain (cs : List Char) :
    ∀ f : List Char, (∀ c ∈ cs, c ≠ '"' ∧ c ≠ ',' ∧ c ≠ '\n' ∧ c ≠ '\r') →
      csvAux ',' cs false f [] [] = if f ++ cs = [] then [] else [[⟨f ++ cs⟩]] := by
  induction cs with
  | nil =>
    intro f _
    rw [csvAux.eq_1, List.append_nil]
    by_cases hf : f = []
    · simp [hf]
    · simp [hf]
  | cons c t ih =>
    intro f h
    obtain ⟨h1, h2, h3, h4⟩ := h c (List.mem_cons_self c t)
    rw [csvAux.eq_5, if_neg h1, if_neg h2, if_neg h3, if_neg h4,
      ih (f ++ [c]) (fun x hx => h x (List.mem_cons_of_mem c hx))]
    simp [List.append_assoc]

/-- C8 as amended: exporting a field through the escaping rule and
re-tokenizing with a comma delimiter reproduces the field exactly
whenever the field is non-empty and either contains a comma, quote or
newline (and is therefore quoted) or contains no carriage return; an
unquoted carriage return is dropped by the tokenizer and an empty
field produces no row at all. -/
theorem C8_quoting_roundtrip (s : String) (hne : s ≠ "")
    (hok : (s.data.contains ',' || s.data.contains '"' || s.data.contains '\n') = true ∨
      s.data.contains '\r' = false) :
    parseCSVLine (escapeField s) ',' = [[s]] := by
  have hdata : s.data ≠ [] := by
    intro h
    exact hne (String.ext (h.trans rfl))
  by_cases hsp : (s.data.contains ',' || s.data.contains '"' || s.data.contains '\n') = true
  · rw [parseCSVLine, escapeField, if_pos hsp]
    rw [show (⟨'"' :: (s.data.flatMap (fun c => if c = '"' then ['"', '"'] else [c])) ++ ['"']⟩ :
        String).data =
      '"' :: ((s.data.flatMap (fun c => if c = '"' then ['"', '"'] else [c])) ++ ['"']) from rfl]
    rw [csvAux.eq_5, if_pos rfl, csvAux_quoted s.data [], List.nil_append]
    rw [if_neg hdata]
  · have hcr : s.data.contains '\r' = false := hok.resolve_left hsp
    have hchars : ∀ c ∈ s.data, c ≠ '"' ∧ c ≠ ',' ∧ c ≠ '\n' ∧ c ≠ '\r' := by
      intro c hcmem
      simp only [Bool.or_eq_true] at hsp
      push_neg at hsp
      refine ⟨?_, ?_, ?_, ?_⟩ <;> intro hceq <;> subst hceq
      · exact hsp.1.2 (List.elem_iff.2 hcmem)
      · exact hsp.1.1 (List.elem_iff.2 hcmem)
      · exact hsp.2 (List.elem_iff.2 hcmem)
      · have hcont : s.data.contains '\r' = true := List.elem_iff.2 hcmem
        rw [hcont] at hcr
        exact absurd hcr (by simp)
    rw [parseCSVLine, escapeField, if_neg hsp, csvAux_plain s.data [] hchars, List.nil_append]
    rw [if_neg hdata]

/-- Witness for C8 at a field containing a comma and a quote. -/
theorem C8_quoting_roundtrip_witness :
    parseCSVLine (escapeField "a,b") ',' = [["a,b"]] :=
  C8_quoting_roundtrip "a,b" (by decide) (Or.inl (by decide))

/-- Counterexample for C8 as stated: an unquoted carriage return is
dropped, so the field is not reproduced. -/
theorem C8_cr_counterexample :
    parseCSVLine (escapeField "a\rb") ',' = [["ab"]] ∧
    parseCSVLine (escapeField "a\rb") ',' ≠ [["a\rb"]] := by
  exact ⟨by decide, by decide⟩

/-! Claim C10: the `patient:` row resets the whole running context. -/

theorem visitGo_unknown_payer (dp : String → Option JsDate) (hm : String → Option ℕ)
    (fb : String) :
    ∀ (rows : List (List String)) (info : PInfo) (n : ℕ),
      info.insurance = "" → info.provider = "" →
      (∀ r2 ∈ rows, isInsuranceRow r2 = false) →
      ∀ c ∈ visitGo dp hm fb info n rows,
        c.payer = "Unknown Payer" ∧ c.provider = orDefault fb "Unknown Provider" := by
  intro rows
  induction rows with
  | nil => intro info n _ _ _ c hc; exact absurd hc (List.not_mem_nil c)
  | cons r t ih =>
    intro info n hins hprov hnone c hc
    simp only [visitGo] at hc
    split_ifs at hc with h1 h2 h3 h4 h5
    · exact ih info n hins hprov (fun x hx => hnone x (List.mem_cons_of_mem r hx)) c hc
    · exact ih info n hins hprov (fun x hx => hnone x (List.mem_cons_of_mem r hx)) c hc
    · exact ih _ n rfl rfl (fun x hx => hnone x (List.mem_cons_of_mem r hx)) c hc
    · rw [hnone r (List.mem_cons_self r t)] at h4
      exact absurd h4 (by simp)
    · rcases List.mem_cons.1 hc with h | h
      · subst h
        constructor
        · rw [show (mkVisitClaim dp hm fb info n r).payer =
            normalizePayerName (orDefault info.insurance "Unknown Payer") from rfl, hins]
          decide
        · rw [show (mkVisitClaim dp hm fb info n r).provider =
            orDefault (orDefault info.provider fb) "Unknown Provider" from rfl, hprov]
          rfl
      · exact ih info (n + 1) hins hprov (fun x hx => hnone x (List.mem_cons_of_mem r hx)) c h
    · exact ih info n hins hprov (fun x hx => hnone x (List.mem_cons_of_mem r hx)) c hc

theorem visitGo_append (dp : String → Option JsDate) (hm : String → Option ℕ)
    (fb : String) :
    ∀ (xs : List (List String)) (info : PInfo) (n : ℕ) (ys : List (List String)),
      ∃ info2 n2, visitGo dp hm fb info n (xs ++ ys) =
        visitGo dp hm fb info n xs ++ visitGo dp hm fb info2 n2 ys := by
  intro xs
  induction xs with
  | nil => intro info n ys; exact ⟨info, n, by simp [visitGo]⟩
  | cons r t ih =>
    intro info n ys
    simp only [List.cons_append, visitGo]
    split_ifs with h1 h2 h3 h4 h5
    · exact ih info n ys
    · exact ih info n ys
    · exact ih _ n ys
    · exact ih _ n ys
    · obtain ⟨info2, n2, heq⟩ := ih info (n + 1) ys
      refine ⟨info2, n2, ?_⟩
      rw [show t.append ys = t ++ ys from rfl, heq]
      rfl
    · exact ih info n ys

/-- C10: a `patient:` row (that is not an all-empty or skipped row)
resets insurance and provider along with the patient fields, so every
claim emitted from the following rows up to the next `insurance:` row
carries payer Unknown Payer and provider equal to the fallback (or
Unknown Provider for an empty fallback), regardless of any earlier
insurance context and of whatever rows, including later `insurance:`
rows, follow that insurance-free stretch. -/
theorem C10_patient_row_resets (dp : String → Option JsDate) (hm : String → Option ℕ)
    (fb : String) (info : PInfo) (n : ℕ) (r : List String)
    (rs1 rs2 : List (List String))
    (hpat : isPatientRow r = true)
    (hskip : (containsStr (rowText r) "sub total" || containsStr (rowText r) "page:") = false)
    (hins : ∀ r2 ∈ rs1, isInsuranceRow r2 = false) :
    ∀ c ∈ visitGo dp hm fb info n (r :: rs1),
      c ∈ visitGo dp hm fb info n (r :: (rs1 ++ rs2)) ∧
      c.payer = "Unknown Payer" ∧ c.provider = orDefault fb "Unknown Provider" := by
  intro c hc
  refine ⟨?_, ?_⟩
  · have hsplit : r :: (rs1 ++ rs2) = (r :: rs1) ++ rs2 := rfl
    rw [hsplit]
    obtain ⟨info2, n2, heq⟩ := visitGo_append dp hm fb (r :: rs1) info n rs2
    rw [heq]
    exact List.mem_append_left _ hc
  · have hrne : ¬(r.all (fun cell => cell = "") = true) := by
      intro hall
      rw [isPatientRow, List.any_eq_true] at hpat
      obtain ⟨cell, hmem, hstart⟩ := hpat
      rw [List.all_eq_true] at hall
      have hcell : cell = "" := by simpa using hall cell hmem
      subst hcell
      exact absurd hstart (by decide)
    simp only [visitGo] at hc
    rw [if_neg hrne, if_neg (by simp [hskip]), if_pos hpat] at hc
    exact visitGo_unknown_payer dp hm fb rs1 _ n rfl rfl hins c hc

/-- Witness for C10: a report whose context holds insurance BlueCross
and provider Dr Z meets a `patient:` row followed by a data row; an
`insurance:` row and a further data row come after that stretch.  The
claim from the insurance-free stretch has payer Unknown Payer and the
empty fallback becomes Unknown Provider, and it also appears in the
run over the full report with the later insurance row present. -/
theorem C10_patient_row_resets_witness :
    (visitGo noDateParse (headerLookup ["Date of Service", "CPT"]) ""
      ⟨"x", "y", "BlueCross", "Dr Z"⟩ 1
      [["Patient: John Smith", ""], ["1/5/2024", "99213"]]).map
        (fun c => (c.payer, c.provider)) = [("Unknown Payer", "Unknown Provider")] ∧
    (visitGo noDateParse (headerLookup ["Date of Service", "CPT"]) ""
      ⟨"x", "y", "BlueCross", "Dr Z"⟩ 1
      [["Patient: John Smith", ""], ["1/5/2024", "99213"]]).all
        (fun c => decide (c ∈ visitGo noDateParse (headerLookup ["Date of Service", "CPT"]) ""
          ⟨"x", "y", "BlueCross", "Dr Z"⟩ 1
          [["Patient: John Smith", ""], ["1/5/2024", "99213"],
           ["Insurance: Aetna", ""], ["1/6/2024", "99214"]])) = true := by
  have happ := C10_patient_row_resets noDateParse (headerLookup ["Date of Service", "CPT"]) ""
    ⟨"x", "y", "BlueCross", "Dr Z"⟩ 1 ["Patient: John Smith", ""]
    [["1/5/2024", "99213"]] [["Insurance: Aetna", ""], ["1/6/2024", "99214"]]
    (by decide) (by decide) (by decide)
  constructor
  · cases hres : visitGo noDateParse (headerLookup ["Date of Service", "CPT"]) ""
        ⟨"x", "y", "BlueCross", "Dr Z"⟩ 1
        [["Patient: John Smith", ""], ["1/5/2024", "99213"]] with
    | nil => exact absurd hres (by decide)
    | cons c0 t0 =>
      have ht0 : t0 = [] := by
        have hlen : (c0 :: t0).length = 1 := by
          rw [← hres]
          decide
        simpa using hlen
      subst ht0
      obtain ⟨-, hp, hpr⟩ := happ c0 (by rw [hres]; exact List.mem_cons_self c0 [])
      simp [hp, hpr]
      rfl
  · rw [List.all_eq_true]
    intro c hc
    exact decide_eq_true (happ c hc).1

end DeltaRCM
